import Mathlib

/-!
# FantasyLeague core: verified shallow embedding

This development embeds the computational core of the FantasyLeague
repository (the scoring engine `core/scoring.py`, the role-modifier
registry `core/roles.py`, and the round/stat extraction pipeline of
`core/demo_parser.py`) into Lean and settles the specification claims
about it.

Modelling conventions:
* Python `float` values are modelled by `ℚ` (the claims under study are
  exact-arithmetic properties; `round(x, n)` is modelled by exact
  round-half-even on rationals).
* Python `dict`s keyed by strings are modelled by insertion-ordered
  association lists (`PyDict`); `d[k]` raising `KeyError` is modelled by
  an `Option`-valued lookup, and a role modifier that would raise is
  modelled as returning `none`.
* A stat record (`stat.get(k, default)`) is modelled by a total function
  `String → Option ℚ` where `none` stands for "key absent or value None"
  (the two are indistinguishable through every access pattern the code
  uses).
-/

namespace FantasyLeague

/-- `clamp` from `core/scoring.py` / `core/roles.py`:
`max(lo, min(hi, v))`. -/
def clamp (v lo hi : ℚ) : ℚ := max lo (min hi v)

/-- Python `int(q)`: truncation toward zero. -/
def pyInt (q : ℚ) : ℤ := if q < 0 then -⌊-q⌋ else ⌊q⌋

/-- Round-half-even to the nearest integer, the rounding mode of
Python's builtin `round`. -/
def roundHalfEven (q : ℚ) : ℤ :=
  if q - ⌊q⌋ < 1/2 then ⌊q⌋
  else if 1/2 < q - ⌊q⌋ then ⌊q⌋ + 1
  else if ⌊q⌋ % 2 = 0 then ⌊q⌋ else ⌊q⌋ + 1

/-- Python `round(q, 2)`. -/
def round2 (q : ℚ) : ℚ := (roundHalfEven (100 * q) : ℚ) / 100

/-- Python `round(q, 3)` (used for breakdown reporting only). -/
def round3 (q : ℚ) : ℚ := (roundHalfEven (1000 * q) : ℚ) / 1000

theorem roundHalfEven_intCast (m : ℤ) : roundHalfEven (m : ℚ) = m := by
  unfold roundHalfEven
  norm_num

theorem floor_le_roundHalfEven (q : ℚ) : ⌊q⌋ ≤ roundHalfEven q := by
  unfold roundHalfEven
  split_ifs <;> omega

theorem roundHalfEven_le_floor_add_one (q : ℚ) : roundHalfEven q ≤ ⌊q⌋ + 1 := by
  unfold roundHalfEven
  split_ifs <;> omega

theorem roundHalfEven_mono {x y : ℚ} (h : x ≤ y) :
    roundHalfEven x ≤ roundHalfEven y := by
  have hfl : ⌊x⌋ ≤ ⌊y⌋ := Int.floor_le_floor h
  rcases eq_or_lt_of_le hfl with he | hlt
  · unfold roundHalfEven
    rw [← he]
    have hr : x - (⌊x⌋ : ℚ) ≤ y - (⌊x⌋ : ℚ) := by linarith
    split_ifs <;> first | omega | linarith
  · calc roundHalfEven x ≤ ⌊x⌋ + 1 := roundHalfEven_le_floor_add_one x
      _ ≤ ⌊y⌋ := hlt
      _ ≤ roundHalfEven y := floor_le_roundHalfEven y

theorem round2_mono {x y : ℚ} (h : x ≤ y) : round2 x ≤ round2 y := by
  unfold round2
  have : roundHalfEven (100 * x) ≤ roundHalfEven (100 * y) :=
    roundHalfEven_mono (by linarith)
  have : (roundHalfEven (100 * x) : ℚ) ≤ (roundHalfEven (100 * y) : ℚ) := by
    exact_mod_cast this
  linarith

theorem round2_eq_self {m : ℤ} : round2 ((m : ℚ) / 100) = (m : ℚ) / 100 := by
  unfold round2
  have h : (100 : ℚ) * ((m : ℚ) / 100) = (m : ℚ) := by ring
  rw [h, roundHalfEven_intCast]

theorem le_clamp {v lo hi : ℚ} (_h : lo ≤ hi) : lo ≤ clamp v lo hi :=
  le_max_left _ _

theorem clamp_le {v lo hi : ℚ} (h : lo ≤ hi) : clamp v lo hi ≤ hi := by
  unfold clamp
  rcases le_total hi (min hi v) with h1 | h1
  · exact max_le h (min_le_left _ _)
  · exact max_le h h1

/-! ## Python dict model

Insertion-ordered association list with unique keys, mirroring Python
`dict` semantics for the operations the code uses: lookup (`d.get(k)` /
`d[k]`), membership, update-or-insert (`d[k] = v`), and value sum
(`sum(d.values())`). -/

/-- A Python dict with string keys and float values. -/
abbrev PyDict := List (String × ℚ)

/-- `d.get(k)`: `some` value, or `none` when the key is absent. -/
def dget (d : PyDict) (k : String) : Option ℚ :=
  (d.find? (fun kv => kv.1 == k)).map (·.2)

/-- `k in d`. -/
def dhas (d : PyDict) (k : String) : Bool :=
  d.any (fun kv => kv.1 == k)

/-- `d[k] = v`: replace the value in place when the key exists
(preserving insertion order), otherwise append a new entry. -/
def dset (d : PyDict) (k : String) (v : ℚ) : PyDict :=
  if dhas d k then d.map (fun kv => if kv.1 == k then (k, v) else kv)
  else d ++ [(k, v)]

/-- `sum(d.values())`. -/
def dsum (d : PyDict) : ℚ := (d.map (·.2)).sum

theorem dget_dset_self (d : PyDict) (k : String) (v : ℚ) :
    dget (dset d k v) k = some v := by
  unfold dset
  split_ifs with h
  · unfold dhas at h
    unfold dget
    induction d with
    | nil => simp at h
    | cons kv rest ih =>
      simp only [List.any_cons, Bool.or_eq_true] at h
      by_cases hk : kv.1 == k
      · simp [List.find?, hk]
      · simp only [List.map_cons, List.find?, hk, if_neg, Bool.false_eq_true,
          not_false_iff, ite_false]
        rcases h with h | h
        · simp [hk] at h
        · simpa [hk] using ih h
  · unfold dget
    induction d with
    | nil => simp [List.find?]
    | cons kv rest ih =>
      unfold dhas at h
      simp only [List.any_cons, Bool.or_eq_true, not_or] at h
      simp only [List.cons_append, List.find?, h.1, Bool.false_eq_true,
        not_false_iff]
      have := ih (by simpa [dhas] using h.2)
      simpa [h.1] using this

theorem dget_dset_ne (d : PyDict) (k k' : String) (v : ℚ) (h : k' ≠ k) :
    dget (dset d k v) k' = dget d k' := by
  have hkf : (k == k') = false := by
    simp only [beq_eq_false_iff_ne, ne_eq]
    exact fun e => h e.symm
  unfold dset dget
  split_ifs with hh
  · rw [List.find?_map]
    have hpred : ((fun kv : String × ℚ => kv.1 == k') ∘
        fun kv : String × ℚ => if kv.1 == k then (k, v) else kv) =
        fun kv : String × ℚ => kv.1 == k' := by
      funext kv
      by_cases hk : (kv.1 == k) = true
      · have h1 : (kv.1 == k') = false := by
          simp only [beq_iff_eq] at hk
          simp only [beq_eq_false_iff_ne, ne_eq, hk]
          exact fun e => h e.symm
        simp [Function.comp, hk, hkf, h1]
      · simp [Function.comp, hk]
    rw [hpred]
    rcases hres : List.find? (fun kv : String × ℚ => kv.1 == k') d with _ | kv0
    · simp
    · have hp := List.find?_some hres
      simp only [beq_iff_eq] at hp
      have hne : (kv0.1 == k) = false := by
        simp only [beq_eq_false_iff_ne, ne_eq, hp]
        exact h
      simp [hne, hp, h]
  · rw [List.find?_append]
    simp [List.find?, hkf]

/-! ## `core/roles.py`

A stat record is a total function from keys to optional values: `none`
models "key absent or stored value `None`" (indistinguishable through
the `s.get(key, d) or d` access pattern the code uses everywhere).

Role functions can raise `KeyError` on a bare `c2[...]` read; that is
modelled by an `Option` result, `none` being the raised error. -/

/-- A Python stat dict (`PlayerMapStats` field map). -/
abbrev Stat := String → Option ℚ

/-- `_copy` from `core/roles.py`: `{k: float(v) for k, v in c.items()}`. -/
def _copy (c : PyDict) : PyDict := c.map (fun kv => (kv.1, kv.2))

/-- `_i` from `core/roles.py`: `int(s.get(key, 0) or 0)`. -/
def _i (s : Stat) (key : String) : ℤ := pyInt ((s key).getD 0)

/-- `_f` from `core/roles.py`: `float(s.get(key, 0) or 0.0)`. -/
def _f (s : Stat) (key : String) : ℚ := (s key).getD 0

/-- `_role_delta`: `clamp(k * (metric - target), lo, hi)`. -/
def _role_delta (metric target k lo hi : ℚ) : ℚ :=
  clamp (k * (metric - target)) lo hi

/-- `_add_bonus`: `c2["bonus"] = float(c2.get("bonus", 0.0)) + float(delta)`. -/
def _add_bonus (c2 : PyDict) (delta : ℚ) : PyDict :=
  dset c2 "bonus" ((dget c2 "bonus").getD 0 + delta)

/-- Round-normalization constants shared by `core/roles.py` and
`core/scoring.py` (`ROUND_BASE = 20.0`, `ROUND_MIN = 0.85`,
`ROUND_MAX = 1.25`). -/
def ROUND_BASE : ℚ := 20

def ROUND_MIN : ℚ := 85 / 100

def ROUND_MAX : ℚ := 125 / 100

/-- `_round_factor` from `core/roles.py`: `1.0` when `played_rounds`
is absent or non-positive, else `clamp(pr / 20, 0.85, 1.25)`. -/
def _round_factor (s : Stat) : ℚ :=
  let pr := _i s "played_rounds"
  if pr ≤ 0 then 1 else clamp ((pr : ℚ) / ROUND_BASE) ROUND_MIN ROUND_MAX

/-- One entry of a role's `effects` list. The diagnostic payload
(`by`, `value`, `detail`, `target_value`) is reporting-only prose and is
elided; the load-bearing fields — which component was touched and its
before/after values (read with bare indexing in the source, hence
`KeyError`-capable) — are kept. -/
structure RoleEffect where
  target : String
  before : ℚ
  after : ℚ
  deriving Repr, DecidableEq

/-- A role function: component map and stat record in, updated map and
effects out; `none` models a raised `KeyError`. -/
abbrev RoleFn := PyDict → Stat → Option (PyDict × List RoleEffect)

/-- `role_CLUTCH_MINISTER`. -/
def role_CLUTCH_MINISTER : RoleFn := fun c s => do
  let c2 := _copy c
  let rf := _round_factor s
  let clutch_wins := _i s "cl_1v2" + _i s "cl_1v3" + _i s "cl_1v4" + _i s "cl_1v5"
  let clutch_adj := (clutch_wins : ℚ) / rf
  let delta := _role_delta clutch_adj 1 2 (-3) 6
  let before ← dget c2 "bonus"
  let c2 := _add_bonus c2 delta
  let after ← dget c2 "bonus"
  return (c2, [⟨"bonus", before, after⟩])

/-- `role_MULTI_FRAGGER`. -/
def role_MULTI_FRAGGER : RoleFn := fun c s => do
  let c2 := _copy c
  let rf := _round_factor s
  let weighted := _i s "mk_3k" + 2 * _i s "mk_4k" + 3 * _i s "mk_5k"
  let weighted_adj := (weighted : ℚ) / rf
  let delta := _role_delta weighted_adj 1 (15/10) (-3) 6
  let before ← dget c2 "bonus"
  let c2 := _add_bonus c2 delta
  let after ← dget c2 "bonus"
  return (c2, [⟨"bonus", before, after⟩])

/-- `role_SUPPORT`: adds `clamp(0.8 * (flash_assists_adj - 2), -3, 3)`
into the `bonus` pocket; touches no other component. -/
def role_SUPPORT : RoleFn := fun c s => do
  let c2 := _copy c
  let rf := _round_factor s
  let flashes := _i s "flash_assists"
  let flashes_adj := (flashes : ℚ) / rf
  let delta := _role_delta flashes_adj 2 (8/10) (-3) 3
  let before ← dget c2 "bonus"
  let c2 := _add_bonus c2 delta
  let after ← dget c2 "bonus"
  return (c2, [⟨"bonus", before, after⟩])

/-- `hs_pct` computed inside `role_HS_MACHINE`:
`0.0 if kills <= 0 else (100.0 * hs / kills)`. -/
def hs_pct (s : Stat) : ℚ :=
  if _i s "kills" ≤ 0 then 0 else 100 * (_i s "hs" : ℚ) / (_i s "kills" : ℚ)

/-- `role_HS_MACHINE` (no round factor, per the source comment). -/
def role_HS_MACHINE : RoleFn := fun c s => do
  let c2 := _copy c
  let delta := _role_delta (hs_pct s) 55 (2/10) (-3) 3
  let before ← dget c2 "bonus"
  let c2 := _add_bonus c2 delta
  let after ← dget c2 "bonus"
  return (c2, [⟨"bonus", before, after⟩])

/-- `role_STAR_PLAYER` (no round factor, per the source comment). -/
def role_STAR_PLAYER : RoleFn := fun c s => do
  let c2 := _copy c
  let rt := _f s "rating2"
  let delta := _role_delta rt (115/100) 10 (-4) 6
  let before ← dget c2 "bonus"
  let c2 := _add_bonus c2 delta
  let after ← dget c2 "bonus"
  return (c2, [⟨"bonus", before, after⟩])

/-- `role_BAITER`. -/
def role_BAITER : RoleFn := fun c s => do
  let c2 := _copy c
  let rf := _round_factor s
  let deaths := _i s "deaths"
  let death_target := 10 * rf
  let metric := death_target - (deaths : ℚ)
  let delta := _role_delta metric 0 (6/10) (-4) 4
  let before ← dget c2 "bonus"
  let c2 := _add_bonus c2 delta
  let after ← dget c2 "bonus"
  return (c2, [⟨"bonus", before, after⟩])

/-- `role_ENTRY_FRAGGER`: bonus from normalized opening kills, then the
`opening_neg` component is scaled by 0.80 (opening success) or 1.20. -/
def role_ENTRY_FRAGGER : RoleFn := fun c s => do
  let c2 := _copy c
  let rf := _round_factor s
  let ok := _i s "opening_kills"
  let od := _i s "opening_deaths"
  let ok_adj := (ok : ℚ) / rf
  let delta := _role_delta ok_adj 1 (15/10) (-3) 6
  let before_bonus ← dget c2 "bonus"
  let c2 := _add_bonus c2 delta
  let after_bonus ← dget c2 "bonus"
  let before_neg ← dget c2 "opening_neg"
  let success := 1 ≤ ok ∧ od ≤ ok
  let mult : ℚ := if success then 8/10 else 12/10
  let c2 := dset c2 "opening_neg" (before_neg * mult)
  let after_neg ← dget c2 "opening_neg"
  return (c2, [⟨"bonus", before_bonus, after_bonus⟩,
               ⟨"opening_neg", before_neg, after_neg⟩])

/-- `role_GRENADER`. -/
def role_GRENADER : RoleFn := fun c s => do
  let c2 := _copy c
  let rf := _round_factor s
  let ud := _f s "utility_dmg"
  let ud_adj := ud / rf
  let delta := _role_delta ud_adj 35 (6/100) (-3) 3
  let before ← dget c2 "bonus"
  let c2 := _add_bonus c2 delta
  let after ← dget c2 "bonus"
  return (c2, [⟨"bonus", before, after⟩])

/-- `ROLES`: the role registry, in source order. -/
def ROLES : List (String × RoleFn) :=
  [("CLUTCH_MINISTER", role_CLUTCH_MINISTER),
   ("BAITER", role_BAITER),
   ("SUPPORT", role_SUPPORT),
   ("HS_MACHINE", role_HS_MACHINE),
   ("MULTI_FRAGGER", role_MULTI_FRAGGER),
   ("STAR_PLAYER", role_STAR_PLAYER),
   ("ENTRY_FRAGGER", role_ENTRY_FRAGGER),
   ("GRENADER", role_GRENADER)]

/-- `ROLES.get(role_code)`. -/
def rolesGet (code : String) : Option RoleFn :=
  (ROLES.find? (fun kv => kv.1 == code)).map (·.2)

/-- The `meta` record built by `apply_role` (role echo, optional
`warning`, effects list). -/
structure RoleMeta where
  role : Option String
  warning : Option String
  effects : List RoleEffect

/-- `apply_role` from `core/roles.py`. A falsy role code (`None` or
`""`) passes the map through; an unknown code passes it through with a
`"unknown_role"` warning; otherwise the registered role function runs
(its `KeyError` propagating as `none`). -/
def apply_role (role_code : Option String) (comp : PyDict) (stat : Stat) :
    Option (PyDict × RoleMeta) :=
  match role_code with
  | none => some (comp, ⟨none, none, []⟩)
  | some rc =>
    if rc = "" then some (comp, ⟨some rc, none, []⟩)
    else
      match rolesGet rc with
      | none => some (comp, ⟨some rc, some "unknown_role", []⟩)
      | some fn =>
        match fn comp stat with
        | none => none
        | some (c2, eff) => some (c2, ⟨some rc, none, eff⟩)

/-! ## `core/scoring.py` -/

/-- `ScoringParams`: the frozen weight/threshold bundle, with the
source's default values. -/
structure ScoringParams where
  KILL : ℚ := 1
  DEATH : ℚ := -(1/2)
  ASSIST : ℚ := 1/2
  OPEN_KILL : ℚ := 15/10
  OPEN_DEATH : ℚ := -1
  MK_3K : ℚ := 2
  MK_4K : ℚ := 5
  MK_5K : ℚ := 10
  CL_1V2 : ℚ := 3
  CL_1V3 : ℚ := 5
  CL_1V4 : ℚ := 8
  CL_1V5 : ℚ := 15
  ADR_BONUS_85 : ℚ := 3
  ADR_BONUS_70 : ℚ := 1
  ADR_PENALTY_50 : ℚ := -1
  RATING_BONUS_120 : ℚ := 4
  RATING_BONUS_100 : ℚ := 2
  RATING_PENALTY_090 : ℚ := -2
  ROUND_BASE : ℚ := 20
  ROUND_MIN : ℚ := 85/100
  ROUND_MAX : ℚ := 125/100
  TEAM_WIN_BONUS : ℚ := 2
  PTS_MIN : ℚ := -20
  PTS_MAX : ℚ := 60

/-- `adr_bonus` from `core/scoring.py`. -/
def adr_bonus (adr : Option ℚ) (p : ScoringParams) : ℚ :=
  match adr with
  | none => 0
  | some a =>
    if 85 ≤ a then p.ADR_BONUS_85
    else if 70 ≤ a then p.ADR_BONUS_70
    else if a < 50 then p.ADR_PENALTY_50
    else 0

/-- `rating_bonus` from `core/scoring.py`. -/
def rating_bonus (rating2 : Option ℚ) (p : ScoringParams) : ℚ :=
  match rating2 with
  | none => 0
  | some r =>
    if 120/100 ≤ r then p.RATING_BONUS_120
    else if 1 ≤ r then p.RATING_BONUS_100
    else if r < 90/100 then p.RATING_PENALTY_090
    else 0

/-- The pre-role component map (`comp_before` in `calc_points`), built
in source order. `float(stat.get(k, 0))` reads are collapsed through
the `Stat` model (absent/None ↦ 0). -/
def comp_before (stat : Stat) (p : ScoringParams) : PyDict :=
  [("kills", ((stat "kills").getD 0) * p.KILL),
   ("assists", ((stat "assists").getD 0) * p.ASSIST),
   ("deaths", ((stat "deaths").getD 0) * p.DEATH),
   ("opening_pos", ((stat "opening_kills").getD 0) * p.OPEN_KILL),
   ("opening_neg", ((stat "opening_deaths").getD 0) * p.OPEN_DEATH),
   ("multi", ((stat "mk_3k").getD 0) * p.MK_3K
           + ((stat "mk_4k").getD 0) * p.MK_4K
           + ((stat "mk_5k").getD 0) * p.MK_5K),
   ("clutch", ((stat "cl_1v2").getD 0) * p.CL_1V2
            + ((stat "cl_1v3").getD 0) * p.CL_1V3
            + ((stat "cl_1v4").getD 0) * p.CL_1V4
            + ((stat "cl_1v5").getD 0) * p.CL_1V5),
   ("adr_rt", adr_bonus (stat "adr") p + rating_bonus (stat "rating2") p),
   ("bonus", 0)]

/-- The breakdown record returned alongside the points value. -/
structure Breakdown where
  components_before : PyDict
  components_after_role : PyDict
  role : RoleMeta
  round_factor : ℚ
  team_win_bonus : ℚ
  final : ℚ

/-- `calc_points` from `core/scoring.py`. Returns `none` only when the
applied role raises (never reachable from the map built in step 1). -/
def calc_points (stat : Stat) (played_rounds : ℤ)
    (winner_team_id player_team_id : Option ℤ) (role_badge : Option String)
    (p : ScoringParams) : Option (ℚ × Breakdown) :=
  let cb := comp_before stat p
  match apply_role role_badge cb stat with
  | none => none
  | some (comp_after, role_meta) =>
    let base_after_roles := dsum comp_after
    let rf_raw := (if played_rounds = 0 then p.ROUND_BASE
                   else (played_rounds : ℚ)) / p.ROUND_BASE
    let round_factor := clamp rf_raw p.ROUND_MIN p.ROUND_MAX
    let team_bonus :=
      match winner_team_id with
      | none => 0
      | some w => if w ≠ 0 ∧ player_team_id = some w then p.TEAM_WIN_BONUS else 0
    let raw := base_after_roles * round_factor + team_bonus
    let final := clamp raw p.PTS_MIN p.PTS_MAX
    some (round2 final,
      { components_before := cb.map (fun kv => (kv.1, round3 kv.2))
        components_after_role := comp_after.map (fun kv => (kv.1, round3 kv.2))
        role := role_meta
        round_factor := round3 round_factor
        team_win_bonus := team_bonus
        final := round3 final })

/-! ## `core/demo_parser.py` -/

def T_TEAM : ℤ := 2

def CT_TEAM : ℤ := 3

/-- A raw Python value as it may arrive in `round_end.winner`:
`None`, a float NaN, a string, an int, a finite float, or any other
object (for which `int(w)` raises and is caught). -/
inductive PyVal where
  | none_ : PyVal
  | nan : PyVal
  | str : String → PyVal
  | int : ℤ → PyVal
  | float : ℚ → PyVal
  | other : PyVal
  deriving Repr, DecidableEq

/-- The code-point ranges CPython 3.11 treats as whitespace
(`str.isspace`, the set `str.strip()` removes): tab..CR, FS..space,
NEL, NBSP, Ogham space mark, the U+2000 block, LS/PS, NNBSP, MMSP and
ideographic space. -/
def pyWhitespaceRanges : List (ℕ × ℕ) :=
  [(9, 13), (28, 32), (133, 133), (160, 160), (5760, 5760),
   (8192, 8202), (8232, 8233), (8239, 8239), (8287, 8287),
   (12288, 12288)]

/-- Python's per-character whitespace test. -/
def pyCharIsSpace (c : Char) : Bool :=
  pyWhitespaceRanges.any (fun r => r.1 ≤ c.toNat && c.toNat ≤ r.2)

/-- Start code points of CPython 3.11's decimal-digit runs (Unicode
category Nd): each run is ten consecutive code points with values 0–9,
exactly the characters `int()` parses. -/
def pyDecimalStarts : List ℕ :=
  [48, 1632, 1776, 1984, 2406, 2534, 2662, 2790, 2918, 3046, 3174,
   3302, 3430, 3558, 3664, 3792, 3872, 4160, 4240, 6112, 6160, 6470,
   6608, 6784, 6800, 6992, 7088, 7232, 7248, 42528, 43216, 43264,
   43472, 43504, 43600, 44016, 65296, 66720, 68912, 69734, 69872,
   69942, 70096, 70384, 70736, 70864, 71248, 71360, 71472, 71904,
   72016, 72784, 73040, 73120, 92768, 92864, 93008, 120782, 120792,
   120802, 120812, 120822, 123200, 123632, 125264, 130032]

/-- Decimal value of a character, when `int()` accepts it. -/
def pyCharDecimalVal? (c : Char) : Option ℕ :=
  pyDecimalStarts.findSome? (fun lo =>
    if lo ≤ c.toNat ∧ c.toNat ≤ lo + 9 then some (c.toNat - lo) else none)

/-- Code-point ranges CPython 3.11 accepts in `str.isdigit` but not in
`int()` (Numeric_Type=Digit without Decimal: superscripts such as `²`,
subscripts, circled/parenthesized digits, ...). On these the source's
unguarded `int(s)` raises an uncaught `ValueError`. -/
def pyDigitOnlyRanges : List (ℕ × ℕ) :=
  [(178, 179), (185, 185), (4969, 4977), (6618, 6618), (8304, 8304),
   (8308, 8313), (8320, 8329), (9312, 9320), (9332, 9340),
   (9352, 9360), (9450, 9450), (9461, 9469), (9471, 9471),
   (10102, 10110), (10112, 10120), (10122, 10130), (68160, 68163),
   (69216, 69224), (69714, 69722), (127232, 127242)]

/-- Python's per-character `isdigit` test: decimal digits plus the
digit-only characters. -/
def pyCharIsDigit (c : Char) : Bool :=
  (pyCharDecimalVal? c).isSome ||
    pyDigitOnlyRanges.any (fun r => r.1 ≤ c.toNat && c.toNat ≤ r.2)

/-- Python `s.strip()`: remove leading and trailing Unicode whitespace
(defined over the character list so it is kernel-computable). -/
def pyStrip (s : String) : String :=
  ⟨((s.data.dropWhile pyCharIsSpace).reverse.dropWhile
      pyCharIsSpace).reverse⟩

/-- Python `s.upper()` (per-character ASCII mapping). Python's full
Unicode uppercasing differs only on cased non-ASCII letters and
ligature expansions; no character other than `t`/`c` uppercases into
`"T"`/`"CT"`, and uppercasing never changes whitespace or digit
classification, so the two agree on every observation
`_normalize_winner` makes. -/
def pyUpper (s : String) : String := ⟨s.data.map Char.toUpper⟩

/-- Python `s.isdigit()`: non-empty and every character a digit
(decimal or digit-only). -/
def pyIsDigit (s : String) : Bool :=
  !s.data.isEmpty && s.data.all pyCharIsDigit

/-- Python `int(s)` on an `isdigit`-true string: succeeds iff every
character is a decimal digit, positionally in base 10; `none` models
the raised `ValueError` on digit-only characters. -/
def pyIntOfDigits (s : String) : Option ℕ :=
  s.data.foldl
    (fun acc c =>
      match acc, pyCharDecimalVal? c with
      | some a, some v => some (10 * a + v)
      | _, _ => none)
    (some 0)

/-- `_normalize_winner` from `core/demo_parser.py`: canonicalize a raw
winner indicator to `.ok (some T_TEAM/CT_TEAM)` or `.ok none`
("unknown"). The string branch calls `int(s)` unguarded after
`s.isdigit()` (the `try/except` protects only the numeric branch), so
a digit-only string such as `"²"` raises an uncaught `ValueError`,
modelled as `.error ()`. -/
def _normalize_winner (w : PyVal) : Except Unit (Option ℤ) :=
  match w with
  | .none_ => .ok none
  | .nan => .ok none
  | .str ws =>
    let s := pyUpper (pyStrip ws)
    if s = "T" then .ok (some T_TEAM)
    else if s = "CT" then .ok (some CT_TEAM)
    else if pyIsDigit s then
      match pyIntOfDigits s with
      | none => .error ()
      | some nval =>
        let n : ℤ := (nval : ℤ)
        if n = T_TEAM ∨ n = CT_TEAM then .ok (some n)
        else if n = 0 then .ok (some T_TEAM)
        else if n = 1 then .ok (some CT_TEAM)
        else .ok none
    else .ok none
  | .int wn =>
    if wn = T_TEAM ∨ wn = CT_TEAM then .ok (some wn)
    else if wn = 0 then .ok (some T_TEAM)
    else if wn = 1 then .ok (some CT_TEAM)
    else .ok none
  | .float q =>
    let n := pyInt q
    if n = T_TEAM ∨ n = CT_TEAM then .ok (some n)
    else if n = 0 then .ok (some T_TEAM)
    else if n = 1 then .ok (some CT_TEAM)
    else .ok none
  | .other => .ok none

/-- `bisect.bisect_right(a, x)` modelled by its documented contract on
a sorted list: the insertion point to the right of every entry `≤ x`,
i.e. the length of the maximal prefix of entries `≤ x`. -/
def bisect_right (a : List ℤ) (x : ℤ) : ℕ :=
  (a.takeWhile (fun t => t ≤ x)).length

/-- One round-end record: `(tick, winner)` row of the sorted
`round_end` frame. -/
abbrev EndRec := ℤ × PyVal

/-- The round-pairing loop of `extract_map_stats_from_demo`
(lines 132–141): for each start tick `s`, binary-search the first
end tick strictly greater than `s`; skip `s` if none exists; read the
winner from the last end record at the matched tick (`tail(1)`).
Each emitted element is `((start, end), normalized winner)`; list
position is the round index. -/
def matchRound (recs : List EndRec) (s : ℤ) :
    Option ((ℤ × ℤ) × Except Unit (Option ℤ)) :=
  let re_ticks := recs.map (·.1)
  let j := bisect_right re_ticks s
  if j < re_ticks.length then
    let e := re_ticks.getD j 0
    let w_raw := match (recs.filter (fun r => r.1 == e)).getLast? with
                 | some r => r.2
                 | none => PyVal.none_
    some ((s, e), _normalize_winner w_raw)
  else none

/-- The full pairing loop: one `matchRound` per start tick, skipped
starts emitting nothing. -/
def pairRounds (freezeTicks : List ℤ) (recs : List EndRec) :
    List ((ℤ × ℤ) × Except Unit (Option ℤ)) :=
  freezeTicks.filterMap (matchRound recs)

/-! ### Clutch detection (lines 314–354)

The per-round clutch pass walks the round's death events in tick
order, shrinking per-side alive sets and recording, once per side, the
first candidate `(last survivor, opponent count)`. The events are
projected to their victim steamid (`str(ev.get("user_steamid") or "")`)
— the only field this pass reads. -/

/-- State of the clutch scan: alive players per side plus the per-side
candidate slots. -/
structure ClutchState where
  aliveT : List String
  aliveCT : List String
  candT : Option (String × ℕ)
  candCT : Option (String × ℕ)
  deriving Repr, DecidableEq

/-- Initial state: every member of the round team map on their side,
candidates empty. -/
def clutchInit (tm : List (String × ℤ)) : ClutchState :=
  { aliveT := tm.filterMap (fun kv => if kv.2 = T_TEAM then some kv.1 else none)
    aliveCT := tm.filterMap (fun kv => if kv.2 = CT_TEAM then some kv.1 else none)
    candT := none
    candCT := none }

/-- Process one death event (victim steamid `v`): skip unknown victims,
erase the victim from their side, then run both candidate checks. -/
def clutchStep (tm : List (String × ℤ)) (st : ClutchState) (v : String) :
    ClutchState :=
  if v = "" ∨ (tm.find? (fun kv => kv.1 == v)) = none then st
  else
    let team := (((tm.find? (fun kv => kv.1 == v)).map (·.2)).getD 0)
    let aliveT := if team = T_TEAM then st.aliveT.erase v else st.aliveT
    let aliveCT := if team = T_TEAM then st.aliveCT else st.aliveCT.erase v
    let candT :=
      match st.candT with
      | some c => some c
      | none =>
        if aliveT.length = 1 ∧ 2 ≤ aliveCT.length ∧ aliveCT.length ≤ 5 then
          some (aliveT.headD "", aliveCT.length)
        else none
    let candCT :=
      match st.candCT with
      | some c => some c
      | none =>
        if aliveCT.length = 1 ∧ 2 ≤ aliveT.length ∧ aliveT.length ≤ 5 then
          some (aliveCT.headD "", aliveT.length)
        else none
    { aliveT := aliveT, aliveCT := aliveCT, candT := candT, candCT := candCT }

/-- The full clutch scan over a round's ordered victim list. -/
def clutchFold (tm : List (String × ℤ)) (victims : List String) : ClutchState :=
  victims.foldl (clutchStep tm) (clutchInit tm)

/-- Candidate slot of a side. -/
def candOf (st : ClutchState) (side : ℤ) : Option (String × ℕ) :=
  if side = T_TEAM then st.candT else st.candCT

/-- Alive set of a side. -/
def aliveOf (st : ClutchState) (side : ℤ) : List String :=
  if side = T_TEAM then st.aliveT else st.aliveCT

/-- The credit step after the round resolves (lines 341–354): if the
winner side has a candidate whose player is still alive, credit that
player at the tier matching the recorded opponent count. Returns the
`(player, tier)` credited, if any. -/
def clutchRound (tm : List (String × ℤ)) (victims : List String)
    (wteam : Option ℤ) : Option (String × ℕ) :=
  let fin := clutchFold tm victims
  match wteam with
  | none => none
  | some w =>
    if w = T_TEAM ∨ w = CT_TEAM then
      match candOf fin w with
      | none => none
      | some (sid_last, x) =>
        if sid_last ∈ aliveOf fin w then
          if x = 2 ∨ x = 3 ∨ x = 4 ∨ x = 5 then some (sid_last, x) else none
        else none
    else none

/-! ### Team score and match winner (lines 360–421) -/

/-- Python truthiness of an optional clan-name (`if not nm: continue`). -/
def truthyName : Option String → Bool
  | none => false
  | some s => !(s == "")

/-- `team_score[nm] += 1` on an insertion-ordered counter dict. -/
def bumpTeam (sc : List (String × ℕ)) (nm : String) : List (String × ℕ) :=
  if sc.any (fun kv => kv.1 == nm) then
    sc.map (fun kv => if kv.1 == nm then (kv.1, kv.2 + 1) else kv)
  else sc ++ [(nm, 1)]

/-- Per-round side-to-name assignment: `(T-side name, CT-side name)`. -/
abbrev SideNames := Option String × Option String

/-- Name occupying a given side in a round. -/
def sideName (sn : SideNames) (side : ℤ) : Option String :=
  if side = T_TEAM then sn.1 else sn.2

/-- One iteration of the team-score accumulation loop (lines 400–408,
restricted to the total counter): skip rounds whose winner side is
unknown or whose winning side has no truthy resolved name; otherwise
bump that name. -/
def teamStep (sc : List (String × ℕ)) (wr : Option ℤ × SideNames) :
    List (String × ℕ) :=
  match wr.1 with
  | none => sc
  | some wside =>
    if wside = T_TEAM ∨ wside = CT_TEAM then
      match sideName wr.2 wside with
      | none => sc
      | some nm => if nm = "" then sc else bumpTeam sc nm
    else sc

/-- The team-score counter after the whole loop (`winners` and
`round_side_team` are index-aligned, hence the zip). -/
def teamScoreOf (winners : List (Option ℤ)) (rst : List SideNames) :
    List (String × ℕ) :=
  (winners.zip rst).foldl teamStep []

/-- The winner-team resolution (lines 417–421): `None` when no round
contributed a named team; else the unique argmax name, or `"DRAW"` on a
tie. -/
def winnerTeamOf (sc : List (String × ℕ)) : Option String :=
  if sc.isEmpty then none
  else
    let mx := (sc.map (·.2)).foldl max 0
    let tops := (sc.filter (fun kv => kv.2 == mx)).map (·.1)
    if tops.length = 1 then some (tops.headD "") else some "DRAW"

/-! ### Halftime detection (lines 370–398) -/

/-- The base-assignment search (lines 374–379): the first round where
both sides carry a truthy resolved name. -/
def findBase : List SideNames → ℕ → Option (String × String × ℕ)
  | [], _ => none
  | sn :: rest, i =>
    if truthyName sn.1 ∧ truthyName sn.2 then
      some (sn.1.getD "", sn.2.getD "", i)
    else findBase rest (i + 1)

/-- First index `≥ start` in the list satisfying `p` (the
`for i in range(start, n)` search pattern). -/
def findIdxFrom (p : SideNames → Bool) (l : List SideNames) (start : ℕ) :
    Option ℕ :=
  match (l.drop start).findIdx? p with
  | none => none
  | some j => some (start + j)

/-- The side-swap predicate of the halftime search (line 386):
both names truthy and equal to the base assignment swapped. -/
def swapPred (bt bc : String) (sn : SideNames) : Bool :=
  truthyName sn.1 && truthyName sn.2 && (sn.1 == some bc) && (sn.2 == some bt)

/-- The return-to-base predicate of the overtime search (line 396). -/
def basePred (bt bc : String) (sn : SideNames) : Bool :=
  truthyName sn.1 && truthyName sn.2 && (sn.1 == some bt) && (sn.2 == some bc)

/-- `half_split` (lines 381–388): fallback `12 if n_rounds > 12 else
n_rounds`, overridden by the first detected side swap after the base
round. -/
def halfSplitOf (rst : List SideNames) : ℕ :=
  let n := rst.length
  let fallback := if n > 12 then 12 else n
  match findBase rst 0 with
  | none => fallback
  | some (bt, bc, bi) =>
    match findIdxFrom (swapPred bt bc) rst (bi + 1) with
    | none => fallback
    | some i => i

/-- `ot_start` (lines 391–398): the first return to the base
assignment after the half split, defaulting to `n_rounds`. -/
def otStartOf (rst : List SideNames) : ℕ :=
  let n := rst.length
  match findBase rst 0 with
  | none => n
  | some (bt, bc, _) =>
    match findIdxFrom (basePred bt bc) rst (halfSplitOf rst + 1) with
    | none => n
    | some i => i

/-- ADR finalization (lines 356–358): divide total damage by the
player's recorded `rounds_played`, falling back to the map's round
count when zero were recorded. -/
def finalize_adr (total_dmg : ℚ) (rounds_played n_rounds : ℕ) : ℚ :=
  let rp := if rounds_played ≠ 0 then rounds_played else n_rounds
  total_dmg / (rp : ℚ)

/-! ## Helper lemmas -/

theorem _copy_eq (c : PyDict) : _copy c = c := by
  unfold _copy
  simp

theorem dget_set_bonus_opening_neg (d : PyDict) (v : ℚ) :
    dget (dset d "bonus" v) "opening_neg" = dget d "opening_neg" :=
  dget_dset_ne d "bonus" "opening_neg" v (by decide)

theorem dget_set_bonus_assists (d : PyDict) (v : ℚ) :
    dget (dset d "bonus" v) "assists" = dget d "assists" :=
  dget_dset_ne d "bonus" "assists" v (by decide)

theorem comp_before_bonus (stat : Stat) (p : ScoringParams) :
    dget (comp_before stat p) "bonus" = some 0 := rfl

theorem comp_before_opening_neg (stat : Stat) (p : ScoringParams) :
    dget (comp_before stat p) "opening_neg" =
      some (((stat "opening_deaths").getD 0) * p.OPEN_DEATH) := rfl

theorem rolesGet_mem {rc : String} {fn : RoleFn} (h : rolesGet rc = some fn) :
    ∃ nm, (nm, fn) ∈ ROLES := by
  unfold rolesGet at h
  rcases Option.map_eq_some'.mp h with ⟨kv, hf, hsnd⟩
  refine ⟨kv.1, ?_⟩
  have hm := List.mem_of_find?_eq_some hf
  rw [← hsnd]
  simpa using hm

theorem apply_role_comp_before_isSome (role : Option String) (stat : Stat)
    (p : ScoringParams) :
    (apply_role role (comp_before stat p) stat).isSome := by
  cases role with
  | none => rfl
  | some rc =>
    unfold apply_role
    by_cases h0 : rc = ""
    · simp [h0]
    · simp only [h0, if_false]
      rcases hfind : rolesGet rc with _ | fn
      · simp
      · obtain ⟨nm, hm⟩ := rolesGet_mem hfind
        have hsome : (fn (comp_before stat p) stat).isSome := by
          simp only [ROLES, List.mem_cons, List.mem_singleton,
            List.not_mem_nil, or_false, Prod.mk.injEq] at hm
          rcases hm with ⟨_, hf1⟩ | ⟨_, hf2⟩ | ⟨_, hf3⟩ | ⟨_, hf4⟩ |
            ⟨_, hf5⟩ | ⟨_, hf6⟩ | ⟨_, hf7⟩ | ⟨_, hf8⟩ <;> subst_vars
          · simp [role_CLUTCH_MINISTER, _copy_eq, comp_before_bonus,
              _add_bonus, dget_dset_self]
          · simp [role_BAITER, _copy_eq, comp_before_bonus, _add_bonus,
              dget_dset_self]
          · simp [role_SUPPORT, _copy_eq, comp_before_bonus, _add_bonus,
              dget_dset_self]
          · simp [role_HS_MACHINE, _copy_eq, comp_before_bonus, _add_bonus,
              dget_dset_self]
          · simp [role_MULTI_FRAGGER, _copy_eq, comp_before_bonus,
              _add_bonus, dget_dset_self]
          · simp [role_STAR_PLAYER, _copy_eq, comp_before_bonus, _add_bonus,
              dget_dset_self]
          · simp [role_ENTRY_FRAGGER, _copy_eq, comp_before_bonus,
              _add_bonus, dget_dset_self, dget_set_bonus_opening_neg,
              comp_before_opening_neg]
          · simp [role_GRENADER, _copy_eq, comp_before_bonus, _add_bonus,
              dget_dset_self]
        rcases Option.isSome_iff_exists.mp hsome with ⟨cr, hcr⟩
        rcases cr with ⟨c2, eff⟩
        simp [hcr]

/-! ## Claim theorems -/

/-- C5: when the role code is `None` or not present in the role
registry, `apply_role` returns the component map unchanged and never
raises; an unrecognized non-empty code (such as `"GHOST"`) carries an
explicit `"unknown_role"` warning in the meta record, with components
identical to the no-role case. -/
theorem apply_role_unknown_passthrough (comp : PyDict) (stat : Stat)
    (rc : String) (hrc : rolesGet rc = none) :
    apply_role none comp stat = some (comp, ⟨none, none, []⟩) ∧
    apply_role (some rc) comp stat =
      some (comp, ⟨some rc, if rc = "" then none else some "unknown_role", []⟩) ∧
    apply_role (some "GHOST") comp stat =
      some (comp, ⟨some "GHOST", some "unknown_role", []⟩) := by
  refine ⟨rfl, ?_, rfl⟩
  unfold apply_role
  by_cases h : rc = ""
  · simp [h]
  · simp [h, hrc]

theorem apply_role_unknown_passthrough_witness :
    rolesGet "GHOST" = none ∧
    (apply_role none [] (fun _ => none) = some ([], ⟨none, none, []⟩) ∧
     apply_role (some "GHOST") [] (fun _ => none) =
       some ([], ⟨some "GHOST",
         if "GHOST" = "" then none else some "unknown_role", []⟩) ∧
     apply_role (some "GHOST") [] (fun _ => none) =
       some ([], ⟨some "GHOST", some "unknown_role", []⟩)) :=
  ⟨rfl, apply_role_unknown_passthrough [] (fun _ => none) "GHOST" rfl⟩

/-- C6: every component a role modifier touches must already exist in
the map: each registered role raises (`none`) on a map with no
`"bonus"` key, `role_ENTRY_FRAGGER` raises on a map with no
`"opening_neg"` key, and the scoring engine's pre-role map supplies
both with numeric defaults. -/
theorem role_components_must_exist (nm : String) (fn : RoleFn)
    (hfn : rolesGet nm = some fn) (comp : PyDict) (stat : Stat)
    (p : ScoringParams) :
    (dget comp "bonus" = none → fn comp stat = none) ∧
    (dget comp "opening_neg" = none → role_ENTRY_FRAGGER comp stat = none) ∧
    dget (comp_before stat p) "bonus" = some 0 ∧
    dget (comp_before stat p) "opening_neg" =
      some (((stat "opening_deaths").getD 0) * p.OPEN_DEATH) := by
  refine ⟨?_, ?_, comp_before_bonus stat p, comp_before_opening_neg stat p⟩
  · intro hnone
    obtain ⟨nm', hm⟩ := rolesGet_mem hfn
    simp only [ROLES, List.mem_cons, List.mem_singleton, List.not_mem_nil,
      or_false, Prod.mk.injEq] at hm
    rcases hm with ⟨_, hg1⟩ | ⟨_, hg2⟩ | ⟨_, hg3⟩ | ⟨_, hg4⟩ |
      ⟨_, hg5⟩ | ⟨_, hg6⟩ | ⟨_, hg7⟩ | ⟨_, hg8⟩ <;> subst_vars
    · simp [role_CLUTCH_MINISTER, _copy_eq, hnone]
    · simp [role_BAITER, _copy_eq, hnone]
    · simp [role_SUPPORT, _copy_eq, hnone]
    · simp [role_HS_MACHINE, _copy_eq, hnone]
    · simp [role_MULTI_FRAGGER, _copy_eq, hnone]
    · simp [role_STAR_PLAYER, _copy_eq, hnone]
    · simp [role_ENTRY_FRAGGER, _copy_eq, hnone]
    · simp [role_GRENADER, _copy_eq, hnone]
  · intro hnone
    rcases hb : dget comp "bonus" with _ | b
    · simp [role_ENTRY_FRAGGER, _copy_eq, hb]
    · simp [role_ENTRY_FRAGGER, _copy_eq, hb, _add_bonus,
        dget_set_bonus_opening_neg, hnone]

theorem role_components_must_exist_witness :
    rolesGet "SUPPORT" = some role_SUPPORT ∧
    dget [] "bonus" = none ∧
    role_SUPPORT [] (fun _ => none) = none :=
  ⟨rfl, rfl,
    (role_components_must_exist "SUPPORT" role_SUPPORT rfl [] (fun _ => none)
      {}).1 rfl⟩

/-- C10: division-by-zero risks resolve to the defined default: a
player with zero recorded `rounds_played` has damage-per-round computed
against the map's total round count (`0.0` with no damage dealt), and
the headshot percentage used by `role_HS_MACHINE` is `0.0` whenever
kills is zero. (`0 < n_rounds` restricts to the reachable states: the
per-player stats table is empty on a zero-round map.) -/
theorem division_defaults_zero (dmg : ℚ) (n_rounds : ℕ) (s : Stat)
    (_hn : 0 < n_rounds) (hk : _i s "kills" = 0) :
    finalize_adr dmg 0 n_rounds = dmg / (n_rounds : ℚ) ∧
    finalize_adr 0 0 n_rounds = 0 ∧
    hs_pct s = 0 := by
  refine ⟨?_, ?_, ?_⟩
  · simp [finalize_adr]
  · simp [finalize_adr]
  · simp [hs_pct, hk]

theorem division_defaults_zero_witness :
    0 < 5 ∧ _i (fun _ => none) "kills" = 0 ∧
    (finalize_adr 7 0 5 = 7 / (5 : ℚ) ∧
     finalize_adr 0 0 5 = 0 ∧
     hs_pct (fun _ => none) = 0) :=
  ⟨by decide, rfl, division_defaults_zero 7 5 (fun _ => none) (by decide) rfl⟩

/-- C7 counterexample: the claim says the support role scales the
`assists` component (post-role `assists` differs from pre-role); on a
concrete map and stat record the role runs and leaves `assists`
exactly unchanged. -/
theorem role_SUPPORT_assists_unchanged_counterexample :
    (role_SUPPORT [("assists", 5), ("bonus", 0)]
        (fun k => if k = "flash_assists" then some 4 else none)).map
        (fun r => dget r.1 "assists") =
      some (dget [("assists", (5 : ℚ)), ("bonus", 0)] "assists") := by
  decide

/-- C7 amended: `role_SUPPORT` leaves `assists` (and every component
other than `bonus`) unchanged and adds to `bonus` the capped delta
`clamp(0.8 * (round-normalized flash assists - 2), -3, 3)` —
proportional to the flash-assist count relative to target 2, capped in
magnitude at 3 (and negative when flash assists fall short). -/
theorem role_SUPPORT_amended_correct (comp : PyDict) (stat : Stat) (b : ℚ)
    (hb : dget comp "bonus" = some b) :
    ∃ c2 eff, role_SUPPORT comp stat = some (c2, eff) ∧
      dget c2 "assists" = dget comp "assists" ∧
      dget c2 "bonus" = some (b +
        clamp ((8/10) * ((_i stat "flash_assists" : ℚ) / _round_factor stat - 2))
          (-3) 3) ∧
      (∀ k, k ≠ "bonus" → dget c2 k = dget comp k) ∧
      -3 ≤ clamp ((8/10) * ((_i stat "flash_assists" : ℚ) / _round_factor stat - 2))
          (-3) 3 ∧
      clamp ((8/10) * ((_i stat "flash_assists" : ℚ) / _round_factor stat - 2))
          (-3) 3 ≤ 3 := by
  set delta := clamp ((8/10) *
    ((_i stat "flash_assists" : ℚ) / _round_factor stat - 2)) (-3) 3 with hdelta
  refine ⟨dset comp "bonus" (b + delta), [⟨"bonus", b, b + delta⟩],
    ?_, ?_, ?_, ?_, le_clamp (by norm_num), clamp_le (by norm_num)⟩
  · simp [role_SUPPORT, _copy_eq, hb, _add_bonus, dget_dset_self, _role_delta,
      hdelta]
  · exact dget_set_bonus_assists comp _
  · rw [dget_dset_self]
  · intro k hk
    exact dget_dset_ne comp "bonus" k _ hk

theorem role_SUPPORT_amended_correct_witness :
    dget [("assists", (5 : ℚ)), ("bonus", 0)] "bonus" = some 0 ∧
    (∃ c2 eff, role_SUPPORT [("assists", 5), ("bonus", 0)]
        (fun k => if k = "flash_assists" then some 4 else none) =
        some (c2, eff) ∧
      dget c2 "assists" = dget [("assists", (5 : ℚ)), ("bonus", 0)] "assists" ∧
      dget c2 "bonus" = some (0 +
        clamp ((8/10) *
          ((_i (fun k => if k = "flash_assists" then some 4 else none)
              "flash_assists" : ℚ) /
            _round_factor (fun k => if k = "flash_assists" then some 4 else none)
            - 2)) (-3) 3) ∧
      (∀ k, k ≠ "bonus" → dget c2 k =
        dget [("assists", (5 : ℚ)), ("bonus", 0)] k) ∧
      -3 ≤ clamp ((8/10) *
          ((_i (fun k => if k = "flash_assists" then some 4 else none)
              "flash_assists" : ℚ) /
            _round_factor (fun k => if k = "flash_assists" then some 4 else none)
            - 2)) (-3) 3 ∧
      clamp ((8/10) *
          ((_i (fun k => if k = "flash_assists" then some 4 else none)
              "flash_assists" : ℚ) /
            _round_factor (fun k => if k = "flash_assists" then some 4 else none)
            - 2)) (-3) 3 ≤ 3) :=
  ⟨rfl, role_SUPPORT_amended_correct [("assists", 5), ("bonus", 0)]
    (fun k => if k = "flash_assists" then some 4 else none) 0 rfl⟩

/-- C8 counterexample: the claim says the half boundary defaults to
round 12 for every total round count; on a 5-round map with no
detectable side swap the code's boundary is 5, not 12. -/
theorem half_split_fallback_counterexample :
    halfSplitOf (List.replicate 5
      ((none : Option String), (none : Option String))) = 5 ∧
    (5 : ℕ) ≠ 12 := by
  refine ⟨?_, by decide⟩
  rfl

/-- C8 amended: when the side-swap search cannot establish the halftime
boundary, the boundary falls back to `min 12 n_rounds` — 12 only when
the map has more than 12 rounds, otherwise the round count itself —
which classifies every round index identically to a boundary of 12. -/
theorem half_split_fallback_amended (rst : List SideNames)
    (h : findBase rst 0 = none ∨
      ∃ bt bc bi, findBase rst 0 = some (bt, bc, bi) ∧
        findIdxFrom (swapPred bt bc) rst (bi + 1) = none) :
    halfSplitOf rst = min 12 rst.length ∧
    ∀ i < rst.length, (i < halfSplitOf rst ↔ i < 12) := by
  have hfb : halfSplitOf rst = if rst.length > 12 then 12 else rst.length := by
    unfold halfSplitOf
    rcases h with h | ⟨bt, bc, bi, h1, h2⟩
    · simp [h]
    · simp [h1, h2]
  constructor
  · rw [hfb]
    split_ifs with h12 <;> omega
  · intro i hi
    rw [hfb]
    split_ifs with h12 <;> omega

theorem half_split_fallback_amended_witness :
    (findBase (List.replicate 5
        ((none : Option String), (none : Option String))) 0 = none ∨
      ∃ bt bc bi, findBase (List.replicate 5
        ((none : Option String), (none : Option String))) 0 =
          some (bt, bc, bi) ∧
        findIdxFrom (swapPred bt bc) (List.replicate 5
          ((none : Option String), (none : Option String))) (bi + 1) = none) ∧
    (halfSplitOf (List.replicate 5
        ((none : Option String), (none : Option String))) =
      min 12 (List.replicate 5
        ((none : Option String), (none : Option String))).length ∧
     ∀ i < (List.replicate 5
        ((none : Option String), (none : Option String))).length,
       (i < halfSplitOf (List.replicate 5
          ((none : Option String), (none : Option String))) ↔ i < 12)) :=
  ⟨Or.inl rfl, half_split_fallback_amended _ (Or.inl rfl)⟩

/-- C9 counterexample: the claim says every unrecognized input yields
the unknown marker without raising; on the digit-only string `"²"`
(`str.isdigit` true, `int()` unparseable) the source's unguarded
`int(s)` raises an uncaught `ValueError`, not `None`. -/
theorem normalize_winner_raises_counterexample :
    _normalize_winner (.str "\u00B2") = .error () ∧
    (Except.error () : Except Unit (Option ℤ)) ≠ .ok none ∧
    (∀ side : ℤ, (Except.error () : Except Unit (Option ℤ)) ≠ .ok (some side)) := by
  refine ⟨rfl, ?_, ?_⟩
  · intro h
    exact Except.noConfusion h
  · intro side h
    exact Except.noConfusion h

/-- C9 amended: the normalizer matches `"T"`/`"CT"` case-insensitively
after stripping Unicode whitespace, parses `isdigit` strings whose
characters are all decimal digits (including non-ASCII decimals such
as `"٢"`) through `int()` and maps 2/3 directly and legacy 0/1 to
T/CT, returns the unknown marker for `None`/NaN/unrecognized
strings/non-coercible values — but a string passing `str.isdigit` with
a non-decimal digit character makes the unguarded `int()` raise an
uncaught `ValueError` (and that is the only raising input). -/
theorem normalize_winner_amended_table (v : PyVal) (ws : String) (n : ℤ)
    (q : ℚ) (m : ℕ) :
    (_normalize_winner v = .error () ∨ _normalize_winner v = .ok none ∨
      _normalize_winner v = .ok (some T_TEAM) ∨
      _normalize_winner v = .ok (some CT_TEAM)) ∧
    _normalize_winner .none_ = .ok none ∧
    _normalize_winner .nan = .ok none ∧
    _normalize_winner .other = .ok none ∧
    (pyUpper (pyStrip ws) = "T" →
      _normalize_winner (.str ws) = .ok (some T_TEAM)) ∧
    (pyUpper (pyStrip ws) = "CT" →
      _normalize_winner (.str ws) = .ok (some CT_TEAM)) ∧
    (_normalize_winner (.int n) = .ok (
      if n = T_TEAM ∨ n = CT_TEAM then some n
      else if n = 0 then some T_TEAM
      else if n = 1 then some CT_TEAM
      else none)) ∧
    (_normalize_winner (.float q) = .ok (
      if pyInt q = T_TEAM ∨ pyInt q = CT_TEAM then some (pyInt q)
      else if pyInt q = 0 then some T_TEAM
      else if pyInt q = 1 then some CT_TEAM
      else none)) ∧
    (pyIsDigit (pyUpper (pyStrip ws)) →
      pyIntOfDigits (pyUpper (pyStrip ws)) = some m →
      _normalize_winner (.str ws) = .ok (
        if (m : ℤ) = T_TEAM ∨ (m : ℤ) = CT_TEAM then some (m : ℤ)
        else if (m : ℤ) = 0 then some T_TEAM
        else if (m : ℤ) = 1 then some CT_TEAM
        else none)) ∧
    (_normalize_winner (.str ws) = .error () ↔
      (pyUpper (pyStrip ws) ≠ "T" ∧ pyUpper (pyStrip ws) ≠ "CT" ∧
       pyIsDigit (pyUpper (pyStrip ws)) = true ∧
       pyIntOfDigits (pyUpper (pyStrip ws)) = none)) ∧
    (pyUpper (pyStrip ws) ≠ "T" → pyUpper (pyStrip ws) ≠ "CT" →
      ¬ pyIsDigit (pyUpper (pyStrip ws)) →
      _normalize_winner (.str ws) = .ok none) := by
  refine ⟨?_, rfl, rfl, rfl, ?_, ?_, ?_, ?_, ?_, ?_, ?_⟩

  · cases v with
    | none_ => exact Or.inr (Or.inl rfl)
    | nan => exact Or.inr (Or.inl rfl)
    | other => exact Or.inr (Or.inl rfl)
    | str s =>
      simp only [_normalize_winner]
      split_ifs with h1 h2 h3
      · exact Or.inr (Or.inr (Or.inl rfl))
      · exact Or.inr (Or.inr (Or.inr rfl))
      · rcases hp : pyIntOfDigits (pyUpper (pyStrip s)) with _ | nv
        · exact Or.inl rfl
        · dsimp only
          split_ifs with h4 h5 h6
          · rcases h4 with h4 | h4 <;> rw [h4]
            · exact Or.inr (Or.inr (Or.inl rfl))
            · exact Or.inr (Or.inr (Or.inr rfl))
          · exact Or.inr (Or.inr (Or.inl rfl))
          · exact Or.inr (Or.inr (Or.inr rfl))
          · exact Or.inr (Or.inl rfl)
      · exact Or.inr (Or.inl rfl)
    | int wn =>
      simp only [_normalize_winner]
      split_ifs with h1 h2 h3
      · rcases h1 with h1 | h1 <;> rw [h1]
        · exact Or.inr (Or.inr (Or.inl rfl))
        · exact Or.inr (Or.inr (Or.inr rfl))
      · exact Or.inr (Or.inr (Or.inl rfl))
      · exact Or.inr (Or.inr (Or.inr rfl))
      · exact Or.inr (Or.inl rfl)
    | float qq =>
      simp only [_normalize_winner]
      split_ifs with h1 h2 h3
      · rcases h1 with h1 | h1 <;> rw [h1]
        · exact Or.inr (Or.inr (Or.inl rfl))
        · exact Or.inr (Or.inr (Or.inr rfl))
      · exact Or.inr (Or.inr (Or.inl rfl))
      · exact Or.inr (Or.inr (Or.inr rfl))
      · exact Or.inr (Or.inl rfl)
  · intro h
    simp [_normalize_winner, h]
  · intro h
    simp [_normalize_winner, h]
  · simp only [_normalize_winner]
    split_ifs <;> rfl
  · simp only [_normalize_winner]
    split_ifs <;> rfl
  · intro hd hm
    have hT : pyUpper (pyStrip ws) ≠ "T" := by
      intro he
      rw [he] at hd
      exact absurd hd (by decide)
    have hCT : pyUpper (pyStrip ws) ≠ "CT" := by
      intro he
      rw [he] at hd
      exact absurd hd (by decide)
    simp only [_normalize_winner]
    rw [if_neg hT, if_neg hCT, if_pos hd, hm]
    dsimp only
    split_ifs <;> rfl
  · constructor
    · intro herr
      simp only [_normalize_winner] at herr
      split_ifs at herr with h1 h2 h3
      · rcases hp : pyIntOfDigits (pyUpper (pyStrip ws)) with _ | nv
        · exact ⟨h1, h2, h3, rfl⟩
        · rw [hp] at herr
          dsimp only at herr
          split_ifs at herr
    · rintro ⟨h1, h2, h3, h4⟩
      simp only [_normalize_winner, h1, h2, h3, h4, if_false, if_true]
  · intro h1 h2 h3
    simp [_normalize_winner, h1, h2, h3]

theorem normalize_winner_amended_table_witness :
    pyUpper (pyStrip " \u00A0t") = "T" ∧
    _normalize_winner (.str " \u00A0t") = .ok (some T_TEAM) ∧
    pyIsDigit (pyUpper (pyStrip "\u0662")) = true ∧
    pyIntOfDigits (pyUpper (pyStrip "\u0662")) = some 2 ∧
    _normalize_winner (.str "\u0662") = .ok (
      if ((2 : ℕ) : ℤ) = T_TEAM ∨ ((2 : ℕ) : ℤ) = CT_TEAM then
        some ((2 : ℕ) : ℤ)
      else if ((2 : ℕ) : ℤ) = 0 then some T_TEAM
      else if ((2 : ℕ) : ℤ) = 1 then some CT_TEAM
      else none) :=
  ⟨by decide,
   (normalize_winner_amended_table (.str " \u00A0t") " \u00A0t" 7 0
     2).2.2.2.2.1 (by decide),
   by decide, by decide,
   (normalize_winner_amended_table (.str "\u0662") "\u0662" 7 0
     2).2.2.2.2.2.2.2.2.1 (by decide) (by decide)⟩

theorem round2_clamp_bounds (v lo hi : ℚ) (hle : lo ≤ hi)
    (hmin : ∃ m : ℤ, lo = (m : ℚ) / 100) (hmax : ∃ m : ℤ, hi = (m : ℚ) / 100) :
    lo ≤ round2 (clamp v lo hi) ∧ round2 (clamp v lo hi) ≤ hi := by
  obtain ⟨m1, h1⟩ := hmin
  obtain ⟨m2, h2⟩ := hmax
  constructor
  · calc lo = round2 lo := by rw [h1, round2_eq_self]
      _ ≤ round2 (clamp v lo hi) := round2_mono (le_clamp hle)
  · calc round2 (clamp v lo hi) ≤ round2 hi := round2_mono (clamp_le hle)
      _ = hi := by rw [h2, round2_eq_self]

/-- C1: scoring boundedness — for every stat record, played-round
count, winner/player team ids, role code and (well-formed) params
bundle, `calc_points` succeeds and its reported two-decimal-rounded
points value satisfies `PTS_MIN ≤ points ≤ PTS_MAX`. (Well-formed:
`PTS_MIN ≤ PTS_MAX` and both bounds expressible at two decimals, as
the defaults -20.0 and 60.0 are; otherwise clamping to an empty or
sub-cent interval is meaningless.) -/
theorem calc_points_bounded (stat : Stat) (played_rounds : ℤ)
    (wid pid : Option ℤ) (role : Option String) (p : ScoringParams)
    (hle : p.PTS_MIN ≤ p.PTS_MAX)
    (hmin : ∃ m : ℤ, p.PTS_MIN = (m : ℚ) / 100)
    (hmax : ∃ m : ℤ, p.PTS_MAX = (m : ℚ) / 100) :
    ∃ pts bd, calc_points stat played_rounds wid pid role p = some (pts, bd) ∧
      p.PTS_MIN ≤ pts ∧ pts ≤ p.PTS_MAX := by
  obtain ⟨cr, hcr⟩ := Option.isSome_iff_exists.mp
    (apply_role_comp_before_isSome role stat p)
  rcases cr with ⟨c2, meta⟩
  rcases hcp : calc_points stat played_rounds wid pid role p with _ | ⟨pts, bd⟩
  · exfalso
    simp only [calc_points, hcr] at hcp
    exact Option.noConfusion hcp
  · refine ⟨pts, bd, rfl, ?_, ?_⟩
    · simp only [calc_points, hcr, Option.some.injEq, Prod.mk.injEq] at hcp
      rw [← hcp.1]
      exact (round2_clamp_bounds _ _ _ hle hmin hmax).1
    · simp only [calc_points, hcr, Option.some.injEq, Prod.mk.injEq] at hcp
      rw [← hcp.1]
      exact (round2_clamp_bounds _ _ _ hle hmin hmax).2

theorem calc_points_bounded_witness :
    (({} : ScoringParams).PTS_MIN ≤ ({} : ScoringParams).PTS_MAX) ∧
    (∃ pts bd, calc_points (fun _ => none) 24 none none none {} =
        some (pts, bd) ∧
      ({} : ScoringParams).PTS_MIN ≤ pts ∧
      pts ≤ ({} : ScoringParams).PTS_MAX) :=
  ⟨by norm_num,
    calc_points_bounded (fun _ => none) 24 none none none {} (by norm_num)
      ⟨-2000, by norm_num⟩ ⟨6000, by norm_num⟩⟩

/-! ### Lemmas for the team-winner claim -/

theorem le_foldl_max (l : List ℕ) : ∀ s : ℕ, s ≤ l.foldl max s := by
  induction l with
  | nil => intro s; exact le_refl s
  | cons a t ih => intro s; exact le_trans (le_max_left s a) (ih (max s a))

theorem mem_le_foldl_max (l : List ℕ) (a : ℕ) (h : a ∈ l) :
    ∀ s : ℕ, a ≤ l.foldl max s := by
  induction l with
  | nil => cases h
  | cons b t ih =>
    intro s
    rw [List.foldl_cons]
    rcases List.mem_cons.mp h with rfl | hm
    · exact le_trans (le_max_right s a) (le_foldl_max t (max s a))
    · exact ih hm (max s b)

theorem foldl_max_mem (l : List ℕ) : ∀ s : ℕ, l.foldl max s ∈ l ∨ l.foldl max s = s := by
  induction l with
  | nil => intro s; right; rfl
  | cons a t ih =>
    intro s
    rw [List.foldl_cons]
    rcases ih (max s a) with h | h
    · left; exact List.mem_cons_of_mem _ h
    · rcases max_choice s a with hc | hc
      · right; rw [h, hc]
      · left; rw [h, hc]; exact List.mem_cons_self _ _

theorem bumpTeam_nodup (sc : List (String × ℕ)) (nm : String)
    (h : (sc.map (·.1)).Nodup) : ((bumpTeam sc nm).map (·.1)).Nodup := by
  unfold bumpTeam
  split_ifs with hany
  · have hkeys : (sc.map (fun kv => if kv.1 == nm then (kv.1, kv.2 + 1) else kv)).map
        (·.1) = sc.map (·.1) := by
      rw [List.map_map]
      apply List.map_congr_left
      intro kv _
      simp only [Function.comp_apply]
      split_ifs <;> rfl
    rw [hkeys]
    exact h
  · have hnm : nm ∉ sc.map (·.1) := by
      intro hmem
      obtain ⟨kv, hkv, hk⟩ := List.mem_map.mp hmem
      exact hany (List.any_eq_true.mpr ⟨kv, hkv, by simp [hk]⟩)
    rw [List.map_append]
    rw [List.nodup_append]
    refine ⟨h, by simp, fun a ha hb => ?_⟩
    simp only [List.map_cons, List.map_nil, List.mem_singleton] at hb
    subst hb
    exact hnm ha

theorem teamStep_nodup (sc : List (String × ℕ)) (wr : Option ℤ × SideNames)
    (h : (sc.map (·.1)).Nodup) : ((teamStep sc wr).map (·.1)).Nodup := by
  unfold teamStep
  rcases wr with ⟨w, sides⟩
  cases w with
  | none => exact h
  | some wside =>
    simp only
    split_ifs with hw
    · cases hsn : sideName sides wside with
      | none => exact h
      | some nm =>
        by_cases hnm : nm = "" <;> simp [hnm, h, bumpTeam_nodup _ _ h]
    · exact h

theorem teamScoreOf_nodup (ws : List (Option ℤ)) (rst : List SideNames) :
    ((teamScoreOf ws rst).map (·.1)).Nodup := by
  unfold teamScoreOf
  generalize (ws.zip rst) = l
  have main : ∀ init : List (String × ℕ), (init.map (·.1)).Nodup →
      ((l.foldl teamStep init).map (·.1)).Nodup := by
    induction l with
    | nil => intro init h; exact h
    | cons wr t ih =>
      intro init h
      rw [List.foldl_cons]
      exact ih _ (teamStep_nodup init wr h)
  exact main [] (by simp)

theorem filter_eq_singleton {α : Type} {l : List α} {p : α → Bool} {a : α}
    (hnd : l.Nodup) (ha : a ∈ l) (hpa : p a = true)
    (huniq : ∀ b ∈ l, p b = true → b = a) :
    l.filter p = [a] := by
  induction l with
  | nil => cases ha
  | cons x t ih =>
    rcases List.nodup_cons.mp hnd with ⟨hx, hndt⟩
    by_cases hpx : p x = true
    · have hxa : x = a := huniq x (List.mem_cons_self _ _) hpx
      subst hxa
      rw [List.filter_cons_of_pos hpx]
      have hnil : t.filter p = [] := by
        rw [List.filter_eq_nil_iff]
        intro b hb hpb
        have hba : b = x := huniq b (List.mem_cons_of_mem _ hb) hpb
        exact hx (hba ▸ hb)
      rw [hnil]
    · have hmem : a ∈ t := by
        rcases List.mem_cons.mp ha with rfl | hmm
        · exact absurd hpa hpx
        · exact hmm
      rw [List.filter_cons_of_neg hpx]
      exact ih hndt hmem (fun b hb hpb => huniq b (List.mem_cons_of_mem _ hb) hpb)

theorem two_le_length_of_mem_ne {α : Type} {l : List α} {a b : α}
    (ha : a ∈ l) (hb : b ∈ l) (h : a ≠ b) : 2 ≤ l.length := by
  rcases l with _ | ⟨x, _ | ⟨y, t⟩⟩
  · cases ha
  · have h1 := List.mem_singleton.mp ha
    have h2 := List.mem_singleton.mp hb
    exact absurd (h1.trans h2.symm) h
  · simp only [List.length_cons]
    omega

/-- C3 counterexample: on a map with one T-won round but no resolved
team name, the winner is the null/unknown marker, not the `"DRAW"`
marker the claim requires for the zero-named case. -/
theorem winner_team_zero_named_counterexample :
    winnerTeamOf (teamScoreOf [some 2]
        [((none : Option String), (none : Option String))]) = none ∧
    (none : Option String) ≠ some "DRAW" := by
  exact ⟨rfl, by decide⟩

/-- C3 amended: the team winner is the unique strictly-dominant named
team when one exists; a tie at the maximal named-team win count (two
distinct names sharing it) is reported as `"DRAW"`; when zero rounds
carry a resolved team name the winner is the null/unknown marker
(`None`), not a draw marker — and never a guessed team. -/
theorem winner_team_amended_correct (ws : List (Option ℤ)) (rst : List SideNames) :
    (teamScoreOf ws rst = [] → winnerTeamOf (teamScoreOf ws rst) = none) ∧
    (∀ t c, (t, c) ∈ teamScoreOf ws rst →
      (∀ t' c', (t', c') ∈ teamScoreOf ws rst → t' ≠ t → c' < c) →
      winnerTeamOf (teamScoreOf ws rst) = some t) ∧
    (∀ t₁ t₂ c, (t₁, c) ∈ teamScoreOf ws rst → (t₂, c) ∈ teamScoreOf ws rst →
      t₁ ≠ t₂ → (∀ t' c', (t', c') ∈ teamScoreOf ws rst → c' ≤ c) →
      winnerTeamOf (teamScoreOf ws rst) = some "DRAW") := by
  set sc := teamScoreOf ws rst with hsc
  have hnodupK : (sc.map (·.1)).Nodup := teamScoreOf_nodup ws rst
  have hnodup : sc.Nodup := hnodupK.of_map _
  refine ⟨?_, ?_, ?_⟩
  · intro h
    rw [h]
    rfl
  · intro t c hm hstrict
    have hne : sc ≠ [] := by
      intro h
      rw [h] at hm
      cases hm
    have hcle : c ≤ (sc.map (·.2)).foldl max 0 :=
      mem_le_foldl_max _ c (List.mem_map.mpr ⟨(t, c), hm, rfl⟩) 0
    have hmxc : (sc.map (·.2)).foldl max 0 = c := by
      rcases foldl_max_mem (sc.map (·.2)) 0 with hmem | h0
      · obtain ⟨e, hes, hee⟩ := List.mem_map.mp hmem
        by_cases het : e.1 = t
        · have he : e = (t, c) := by
            apply List.inj_on_of_nodup_map hnodupK hes hm
            simpa using het
          rw [← hee, he]
        · have hlt := hstrict e.1 e.2 (by simpa using hes) het
          omega
      · omega
    have hfilter : sc.filter (fun kv => kv.2 == (sc.map (·.2)).foldl max 0) =
        [(t, c)] := by
      apply filter_eq_singleton hnodup hm
      · simp [hmxc]
      · intro b hb hpb
        simp only [beq_iff_eq, hmxc] at hpb
        by_cases hbt : b.1 = t
        · apply List.inj_on_of_nodup_map hnodupK hb hm
          simpa using hbt
        · have hlt := hstrict b.1 b.2 (by simpa using hb) hbt
          omega
    unfold winnerTeamOf
    rw [if_neg (by simpa [List.isEmpty_iff] using hne)]
    simp only [hfilter]
    simp
  · intro t₁ t₂ c hm1 hm2 hne12 hle
    have hne : sc ≠ [] := by
      intro h
      rw [h] at hm1
      cases hm1
    have hcle : c ≤ (sc.map (·.2)).foldl max 0 :=
      mem_le_foldl_max _ c (List.mem_map.mpr ⟨(t₁, c), hm1, rfl⟩) 0
    have hmxc : (sc.map (·.2)).foldl max 0 = c := by
      rcases foldl_max_mem (sc.map (·.2)) 0 with hmem | h0
      · obtain ⟨e, hes, hee⟩ := List.mem_map.mp hmem
        have hlee := hle e.1 e.2 (by simpa using hes)
        omega
      · omega
    have ht1 : t₁ ∈ (sc.filter (fun kv => kv.2 == (sc.map (·.2)).foldl max 0)).map
        (·.1) :=
      List.mem_map.mpr ⟨(t₁, c), List.mem_filter.mpr ⟨hm1, by simp [hmxc]⟩, rfl⟩
    have ht2 : t₂ ∈ (sc.filter (fun kv => kv.2 == (sc.map (·.2)).foldl max 0)).map
        (·.1) :=
      List.mem_map.mpr ⟨(t₂, c), List.mem_filter.mpr ⟨hm2, by simp [hmxc]⟩, rfl⟩
    have hlen := two_le_length_of_mem_ne ht1 ht2 hne12
    unfold winnerTeamOf
    rw [if_neg (by simpa [List.isEmpty_iff] using hne)]
    simp only [List.length_map] at hlen
    rw [if_neg (by simp only [List.length_map]; omega)]

theorem winner_team_amended_correct_witness :
    ("Alpha", 2) ∈ teamScoreOf [some 2, some 3, some 2]
      [(some "Alpha", some "Beta"), (some "Alpha", some "Beta"),
       (some "Alpha", some "Beta")] ∧
    (∀ t' c', (t', c') ∈ teamScoreOf [some 2, some 3, some 2]
        [(some "Alpha", some "Beta"), (some "Alpha", some "Beta"),
         (some "Alpha", some "Beta")] → t' ≠ "Alpha" → c' < 2) ∧
    winnerTeamOf (teamScoreOf [some 2, some 3, some 2]
      [(some "Alpha", some "Beta"), (some "Alpha", some "Beta"),
       (some "Alpha", some "Beta")]) = some "Alpha" :=
  ⟨by decide,
    (by
      intro t' c' hmem hne
      have heval : teamScoreOf [some 2, some 3, some 2]
          [(some "Alpha", some "Beta"), (some "Alpha", some "Beta"),
           (some "Alpha", some "Beta")] = [("Alpha", 2), ("Beta", 1)] := by
        decide
      rw [heval] at hmem
      simp only [List.mem_cons, List.mem_singleton, List.not_mem_nil,
        or_false, Prod.mk.injEq] at hmem
      rcases hmem with ⟨h1, h2⟩ | ⟨h1, h2⟩
      · exact absurd h1 hne
      · omega),
    (winner_team_amended_correct [some 2, some 3, some 2]
      [(some "Alpha", some "Beta"), (some "Alpha", some "Beta"),
       (some "Alpha", some "Beta")]).2.1 "Alpha" 2 (by decide)
      (by
        intro t' c' hmem hne
        have heval : teamScoreOf [some 2, some 3, some 2]
            [(some "Alpha", some "Beta"), (some "Alpha", some "Beta"),
             (some "Alpha", some "Beta")] = [("Alpha", 2), ("Beta", 1)] := by
          decide
        rw [heval] at hmem
        simp only [List.mem_cons, List.mem_singleton, List.not_mem_nil,
          or_false, Prod.mk.injEq] at hmem
        rcases hmem with ⟨h1, h2⟩ | ⟨h1, h2⟩
        · exact absurd h1 hne
        · omega)⟩

/-! ### Lemmas for the round-pairing claim -/

theorem bisect_right_lt_spec (l : List ℤ) (s : ℤ) (hl : l.Sorted (· ≤ ·))
    (hj : bisect_right l s < l.length) :
    s < l.getD (bisect_right l s) 0 ∧ l.getD (bisect_right l s) 0 ∈ l ∧
    ∀ t ∈ l, s < t → l.getD (bisect_right l s) 0 ≤ t := by
  induction l with
  | nil => simp [bisect_right] at hj
  | cons a tl ih =>
    rw [List.sorted_cons] at hl
    by_cases ha : a ≤ s
    · have hb : bisect_right (a :: tl) s = bisect_right tl s + 1 := by
        unfold bisect_right
        rw [List.takeWhile_cons]
        simp [ha]
      rw [hb] at hj ⊢
      simp only [List.length_cons, Nat.add_lt_add_iff_right] at hj
      obtain ⟨h1, h2, h3⟩ := ih hl.2 hj
      refine ⟨by simpa using h1, ?_, ?_⟩
      · simpa using List.mem_cons_of_mem a h2
      · intro t ht hst
        rcases List.mem_cons.mp ht with rfl | htl
        · omega
        · simpa using h3 t htl hst
    · push_neg at ha
      have hb : bisect_right (a :: tl) s = 0 := by
        unfold bisect_right
        rw [List.takeWhile_cons]
        simp [not_le.mpr ha]
      rw [hb]
      refine ⟨by simpa using ha, List.mem_cons_self _ _, ?_⟩
      intro t ht _
      rcases List.mem_cons.mp ht with rfl | htl
      · simp
      · simpa using hl.1 t htl

theorem bisect_right_all_le (l : List ℤ) (s : ℤ) (h : ∀ t ∈ l, t ≤ s) :
    bisect_right l s = l.length := by
  induction l with
  | nil => rfl
  | cons a tl ih =>
    unfold bisect_right at *
    rw [List.takeWhile_cons]
    have ha : decide (a ≤ s) = true := decide_eq_true (h a (List.mem_cons_self _ _))
    rw [ha, if_pos rfl]
    simp only [List.length_cons]
    exact congrArg (· + 1) (ih (fun t ht => h t (List.mem_cons_of_mem _ ht)))

theorem matchRound_eq_some {recs : List EndRec} {s : ℤ}
    {x : (ℤ × ℤ) × Except Unit (Option ℤ)}
    (h : matchRound recs s = some x) :
    x.1.1 = s ∧ bisect_right (recs.map (·.1)) s < (recs.map (·.1)).length ∧
    x.1.2 = (recs.map (·.1)).getD (bisect_right (recs.map (·.1)) s) 0 ∧
    x.2 = _normalize_winner
      (match (recs.filter (fun r => r.1 == x.1.2)).getLast? with
       | some r => r.2
       | none => PyVal.none_) := by
  unfold matchRound at h
  dsimp only at h
  split_ifs at h with hj
  · injection h with h
    subst h
    exact ⟨rfl, hj, rfl, rfl⟩

theorem pairRounds_starts_sublist (F : List ℤ) (R : List EndRec) :
    ((pairRounds F R).map (fun rw => rw.1.1)).Sublist F := by
  induction F with
  | nil => simp [pairRounds]
  | cons s F' ih =>
    rw [pairRounds, List.filterMap_cons]
    rcases hm : matchRound R s with _ | x
    · exact ih.trans (List.sublist_cons_self s F')
    · have hx : x.1.1 = s := (matchRound_eq_some hm).1
      rw [List.map_cons, hx]
      exact ih.cons₂ s

/-- C2: round pairing — on a strictly sorted deduplicated start-tick
list and tick-sorted end-record list, every emitted round's end tick is
the smallest end tick strictly greater than its start; the winner is
read from the last end record at the matched tick; rounds appear in
start-tick order (indices are list positions, hence consecutive); and
a start tick with no strictly later end tick emits nothing. -/
theorem round_pairing_correct (F : List ℤ) (R : List EndRec)
    (hF : F.Sorted (· < ·)) (hR : (R.map (·.1)).Sorted (· ≤ ·)) :
    (∀ se w, ((se, w) ∈ pairRounds F R) →
       se.1 ∈ F ∧ se.2 ∈ R.map (·.1) ∧ se.1 < se.2 ∧
       ∀ t ∈ R.map (·.1), se.1 < t → se.2 ≤ t) ∧
    (∀ se w, ((se, w) ∈ pairRounds F R) →
       ∃ r : EndRec, (R.filter (fun rr => rr.1 == se.2)).getLast? = some r ∧
         r.1 = se.2 ∧ w = _normalize_winner r.2) ∧
    ((pairRounds F R).map (fun rw => rw.1.1)).Sorted (· < ·) ∧
    (∀ s ∈ F, (∀ t ∈ R.map (·.1), t ≤ s) →
       s ∉ (pairRounds F R).map (fun rw => rw.1.1)) := by
  refine ⟨?_, ?_, ?_, ?_⟩
  · intro se w h
    obtain ⟨s, hsF, hf⟩ := List.mem_filterMap.mp h
    obtain ⟨h1, hj, h2, _⟩ := matchRound_eq_some hf
    obtain ⟨hlt, hmem, hmin⟩ := bisect_right_lt_spec (R.map (·.1)) s hR hj
    subst h1
    rw [h2]
    exact ⟨hsF, hmem, hlt, hmin⟩
  · intro se w h
    obtain ⟨s, hsF, hf⟩ := List.mem_filterMap.mp h
    obtain ⟨h1, hj, h2, h3⟩ := matchRound_eq_some hf
    obtain ⟨_, hmem, _⟩ := bisect_right_lt_spec (R.map (·.1)) s hR hj
    rw [← h2] at hmem
    have hne : R.filter (fun rr => rr.1 == se.2) ≠ [] := by
      obtain ⟨rec0, hrec0, hfst⟩ := List.mem_map.mp hmem
      intro hnil
      rw [List.filter_eq_nil_iff] at hnil
      exact hnil rec0 hrec0 (by simp [hfst])
    rcases hlast : (R.filter (fun rr => rr.1 == se.2)).getLast? with _ | r
    · exact absurd (List.getLast?_eq_none_iff.mp hlast) hne
    · have hrmem := List.mem_of_getLast?_eq_some hlast
      have hpred := List.of_mem_filter hrmem
      simp only [beq_iff_eq] at hpred
      refine ⟨r, hlast, hpred, ?_⟩
      rw [hlast] at h3
      exact h3
  · exact hF.sublist (pairRounds_starts_sublist F R)
  · intro s hs hall hmem
    obtain ⟨x, hx, hxs⟩ := List.mem_map.mp hmem
    obtain ⟨s', hs', hf⟩ := List.mem_filterMap.mp hx
    obtain ⟨h1, hj, _, _⟩ := matchRound_eq_some hf
    rw [h1] at hxs
    rw [← hxs] at hall
    rw [bisect_right_all_le (R.map (·.1)) s' hall] at hj
    omega

theorem round_pairing_correct_witness :
    ([10, 30] : List ℤ).Sorted (· < ·) ∧
    (([(20, PyVal.str "T"), (20, PyVal.str "CT"), (40, PyVal.int 3)] :
        List EndRec).map (·.1)).Sorted (· ≤ ·) ∧
    ((∀ se w, ((se, w) ∈ pairRounds [10, 30]
        [(20, PyVal.str "T"), (20, PyVal.str "CT"), (40, PyVal.int 3)]) →
       se.1 ∈ ([10, 30] : List ℤ) ∧
       se.2 ∈ ([(20, PyVal.str "T"), (20, PyVal.str "CT"),
         (40, PyVal.int 3)] : List EndRec).map (·.1) ∧ se.1 < se.2 ∧
       ∀ t ∈ ([(20, PyVal.str "T"), (20, PyVal.str "CT"),
         (40, PyVal.int 3)] : List EndRec).map (·.1), se.1 < t → se.2 ≤ t) ∧
     (∀ se w, ((se, w) ∈ pairRounds [10, 30]
        [(20, PyVal.str "T"), (20, PyVal.str "CT"), (40, PyVal.int 3)]) →
       ∃ r : EndRec, (([(20, PyVal.str "T"), (20, PyVal.str "CT"),
           (40, PyVal.int 3)] : List EndRec).filter
           (fun rr => rr.1 == se.2)).getLast? = some r ∧
         r.1 = se.2 ∧ w = _normalize_winner r.2) ∧
     ((pairRounds [10, 30] [(20, PyVal.str "T"), (20, PyVal.str "CT"),
        (40, PyVal.int 3)]).map (fun rw => rw.1.1)).Sorted (· < ·) ∧
     (∀ s ∈ ([10, 30] : List ℤ),
       (∀ t ∈ ([(20, PyVal.str "T"), (20, PyVal.str "CT"),
         (40, PyVal.int 3)] : List EndRec).map (·.1), t ≤ s) →
       s ∉ (pairRounds [10, 30] [(20, PyVal.str "T"), (20, PyVal.str "CT"),
         (40, PyVal.int 3)]).map (fun rw => rw.1.1))) :=
  ⟨by decide, by decide,
    round_pairing_correct [10, 30]
      [(20, PyVal.str "T"), (20, PyVal.str "CT"), (40, PyVal.int 3)]
      (by decide) (by decide)⟩

/-! ### Lemmas for the clutch claim -/

theorem eq_singleton_of_length_one {l : List String} (h : l.length = 1) :
    l = [l.headD ""] := by
  cases l with
  | nil => simp at h
  | cons a t =>
    cases t with
    | nil => rfl
    | cons b t' => simp at h

theorem clutchStep_candT_sticky (tm : List (String × ℤ)) (st : ClutchState)
    (v : String) (c : String × ℕ) (h : st.candT = some c) :
    (clutchStep tm st v).candT = some c := by
  unfold clutchStep
  split_ifs with hskip
  · exact h
  · simp only [h]

theorem clutchStep_candCT_sticky (tm : List (String × ℤ)) (st : ClutchState)
    (v : String) (c : String × ℕ) (h : st.candCT = some c) :
    (clutchStep tm st v).candCT = some c := by
  unfold clutchStep
  split_ifs with hskip
  · exact h
  · simp only [h]

theorem foldl_candT_sticky (tm : List (String × ℤ)) (vs : List String)
    (st : ClutchState) (c : String × ℕ) (h : st.candT = some c) :
    (vs.foldl (clutchStep tm) st).candT = some c := by
  induction vs generalizing st with
  | nil => exact h
  | cons v t ih => exact ih _ (clutchStep_candT_sticky tm st v c h)

theorem foldl_candCT_sticky (tm : List (String × ℤ)) (vs : List String)
    (st : ClutchState) (c : String × ℕ) (h : st.candCT = some c) :
    (vs.foldl (clutchStep tm) st).candCT = some c := by
  induction vs generalizing st with
  | nil => exact h
  | cons v t ih => exact ih _ (clutchStep_candCT_sticky tm st v c h)

theorem clutchStep_expand (tm : List (String × ℤ)) (st : ClutchState)
    (v : String)
    (hskip : ¬ (v = "" ∨ (tm.find? (fun kv => kv.1 == v)) = none)) :
    clutchStep tm st v =
      { aliveT := if (((tm.find? (fun kv => kv.1 == v)).map (·.2)).getD 0) =
            T_TEAM then st.aliveT.erase v else st.aliveT
        aliveCT := if (((tm.find? (fun kv => kv.1 == v)).map (·.2)).getD 0) =
            T_TEAM then st.aliveCT else st.aliveCT.erase v
        candT :=
          match st.candT with
          | some c => some c
          | none =>
            if (if (((tm.find? (fun kv => kv.1 == v)).map (·.2)).getD 0) =
                  T_TEAM then st.aliveT.erase v else st.aliveT).length = 1 ∧
               2 ≤ (if (((tm.find? (fun kv => kv.1 == v)).map (·.2)).getD 0) =
                  T_TEAM then st.aliveCT else st.aliveCT.erase v).length ∧
               (if (((tm.find? (fun kv => kv.1 == v)).map (·.2)).getD 0) =
                  T_TEAM then st.aliveCT else st.aliveCT.erase v).length ≤ 5
            then some ((if (((tm.find? (fun kv => kv.1 == v)).map
                  (·.2)).getD 0) = T_TEAM then st.aliveT.erase v
                  else st.aliveT).headD "",
                (if (((tm.find? (fun kv => kv.1 == v)).map (·.2)).getD 0) =
                  T_TEAM then st.aliveCT else st.aliveCT.erase v).length)
            else none
        candCT :=
          match st.candCT with
          | some c => some c
          | none =>
            if (if (((tm.find? (fun kv => kv.1 == v)).map (·.2)).getD 0) =
                  T_TEAM then st.aliveCT else st.aliveCT.erase v).length = 1 ∧
               2 ≤ (if (((tm.find? (fun kv => kv.1 == v)).map (·.2)).getD 0) =
                  T_TEAM then st.aliveT.erase v else st.aliveT).length ∧
               (if (((tm.find? (fun kv => kv.1 == v)).map (·.2)).getD 0) =
                  T_TEAM then st.aliveT.erase v else st.aliveT).length ≤ 5
            then some ((if (((tm.find? (fun kv => kv.1 == v)).map
                  (·.2)).getD 0) = T_TEAM then st.aliveCT
                  else st.aliveCT.erase v).headD "",
                (if (((tm.find? (fun kv => kv.1 == v)).map (·.2)).getD 0) =
                  T_TEAM then st.aliveT.erase v else st.aliveT).length)
            else none } := by
  unfold clutchStep
  rw [if_neg hskip]

theorem clutchStep_candT_new (tm : List (String × ℤ)) (st : ClutchState)
    (v : String) (c : String × ℕ) (h0 : st.candT = none)
    (h1 : (clutchStep tm st v).candT = some c) :
    (clutchStep tm st v).aliveT.length = 1 ∧
    (clutchStep tm st v).aliveT.headD "" = c.1 ∧
    (clutchStep tm st v).aliveCT.length = c.2 ∧ 2 ≤ c.2 ∧ c.2 ≤ 5 := by
  by_cases hskip : v = "" ∨ (tm.find? (fun kv => kv.1 == v)) = none
  · have hstep : clutchStep tm st v = st := by
      unfold clutchStep
      rw [if_pos hskip]
    rw [hstep, h0] at h1
    exact absurd h1 (by simp)
  · rw [clutchStep_expand tm st v hskip] at h1 ⊢
    set aT := if (((tm.find? (fun kv => kv.1 == v)).map (·.2)).getD 0) =
      T_TEAM then st.aliveT.erase v else st.aliveT with haT
    set aCT := if (((tm.find? (fun kv => kv.1 == v)).map (·.2)).getD 0) =
      T_TEAM then st.aliveCT else st.aliveCT.erase v with haCT
    rw [h0] at h1
    dsimp only at h1 ⊢
    split_ifs at h1 with hcond
    · injection h1 with h1
      subst h1
      exact ⟨hcond.1, rfl, rfl, hcond.2.1, hcond.2.2⟩

theorem clutchStep_candCT_new (tm : List (String × ℤ)) (st : ClutchState)
    (v : String) (c : String × ℕ) (h0 : st.candCT = none)
    (h1 : (clutchStep tm st v).candCT = some c) :
    (clutchStep tm st v).aliveCT.length = 1 ∧
    (clutchStep tm st v).aliveCT.headD "" = c.1 ∧
    (clutchStep tm st v).aliveT.length = c.2 ∧ 2 ≤ c.2 ∧ c.2 ≤ 5 := by
  by_cases hskip : v = "" ∨ (tm.find? (fun kv => kv.1 == v)) = none
  · have hstep : clutchStep tm st v = st := by
      unfold clutchStep
      rw [if_pos hskip]
    rw [hstep, h0] at h1
    exact absurd h1 (by simp)
  · rw [clutchStep_expand tm st v hskip] at h1 ⊢
    set aT := if (((tm.find? (fun kv => kv.1 == v)).map (·.2)).getD 0) =
      T_TEAM then st.aliveT.erase v else st.aliveT with haT
    set aCT := if (((tm.find? (fun kv => kv.1 == v)).map (·.2)).getD 0) =
      T_TEAM then st.aliveCT else st.aliveCT.erase v with haCT
    rw [h0] at h1
    dsimp only at h1 ⊢
    split_ifs at h1 with hcond
    · injection h1 with h1
      subst h1
      exact ⟨hcond.1, rfl, rfl, hcond.2.1, hcond.2.2⟩

theorem foldl_candT_first (tm : List (String × ℤ)) (vs : List String)
    (st0 : ClutchState) (c : String × ℕ) (h0 : st0.candT = none)
    (hfin : (vs.foldl (clutchStep tm) st0).candT = some c) :
    ∃ k, k < vs.length ∧
      ((vs.take k).foldl (clutchStep tm) st0).candT = none ∧
      ((vs.take (k+1)).foldl (clutchStep tm) st0).candT = some c ∧
      ((vs.take (k+1)).foldl (clutchStep tm) st0).aliveT = [c.1] ∧
      ((vs.take (k+1)).foldl (clutchStep tm) st0).aliveCT.length = c.2 ∧
      2 ≤ c.2 ∧ c.2 ≤ 5 := by
  induction vs generalizing st0 with
  | nil =>
    rw [List.foldl_nil] at hfin
    rw [h0] at hfin
    exact absurd hfin (by simp)
  | cons v t ih =>
    rw [List.foldl_cons] at hfin
    rcases hst1 : (clutchStep tm st0 v).candT with _ | c1
    · obtain ⟨k, hk, ha, hb, hc, hd, he, hf⟩ := ih (clutchStep tm st0 v) hst1 hfin
      refine ⟨k + 1, ?_, ?_, ?_, ?_, ?_, he, hf⟩
      · simp only [List.length_cons]
        omega
      · simpa [List.take_succ_cons, List.foldl_cons] using ha
      · simpa [List.take_succ_cons, List.foldl_cons] using hb
      · simpa [List.take_succ_cons, List.foldl_cons] using hc
      · simpa [List.take_succ_cons, List.foldl_cons] using hd
    · have hsticky := foldl_candT_sticky tm t (clutchStep tm st0 v) c1 hst1
      have hc1 : c1 = c := by
        have := hsticky.symm.trans hfin
        injection this
      subst hc1
      obtain ⟨h1, h2, h3, h4, h5⟩ := clutchStep_candT_new tm st0 v c1 h0 hst1
      refine ⟨0, by simp, by simpa using h0, ?_, ?_, ?_, h4, h5⟩
      · simpa [List.take_succ_cons, List.foldl_cons] using hst1
      · have := eq_singleton_of_length_one h1
        rw [h2] at this
        simpa [List.take_succ_cons, List.foldl_cons] using this
      · simpa [List.take_succ_cons, List.foldl_cons] using h3

theorem foldl_candCT_first (tm : List (String × ℤ)) (vs : List String)
    (st0 : ClutchState) (c : String × ℕ) (h0 : st0.candCT = none)
    (hfin : (vs.foldl (clutchStep tm) st0).candCT = some c) :
    ∃ k, k < vs.length ∧
      ((vs.take k).foldl (clutchStep tm) st0).candCT = none ∧
      ((vs.take (k+1)).foldl (clutchStep tm) st0).candCT = some c ∧
      ((vs.take (k+1)).foldl (clutchStep tm) st0).aliveCT = [c.1] ∧
      ((vs.take (k+1)).foldl (clutchStep tm) st0).aliveT.length = c.2 ∧
      2 ≤ c.2 ∧ c.2 ≤ 5 := by
  induction vs generalizing st0 with
  | nil =>
    rw [List.foldl_nil] at hfin
    rw [h0] at hfin
    exact absurd hfin (by simp)
  | cons v t ih =>
    rw [List.foldl_cons] at hfin
    rcases hst1 : (clutchStep tm st0 v).candCT with _ | c1
    · obtain ⟨k, hk, ha, hb, hc, hd, he, hf⟩ := ih (clutchStep tm st0 v) hst1 hfin
      refine ⟨k + 1, ?_, ?_, ?_, ?_, ?_, he, hf⟩
      · simp only [List.length_cons]
        omega
      · simpa [List.take_succ_cons, List.foldl_cons] using ha
      · simpa [List.take_succ_cons, List.foldl_cons] using hb
      · simpa [List.take_succ_cons, List.foldl_cons] using hc
      · simpa [List.take_succ_cons, List.foldl_cons] using hd
    · have hsticky := foldl_candCT_sticky tm t (clutchStep tm st0 v) c1 hst1
      have hc1 : c1 = c := by
        have := hsticky.symm.trans hfin
        injection this
      subst hc1
      obtain ⟨h1, h2, h3, h4, h5⟩ := clutchStep_candCT_new tm st0 v c1 h0 hst1
      refine ⟨0, by simp, by simpa using h0, ?_, ?_, ?_, h4, h5⟩
      · simpa [List.take_succ_cons, List.foldl_cons] using hst1
      · have := eq_singleton_of_length_one h1
        rw [h2] at this
        simpa [List.take_succ_cons, List.foldl_cons] using this
      · simpa [List.take_succ_cons, List.foldl_cons] using h3

/-- C4: clutch exclusivity — a round credits at most one player one
clutch tier (`clutchRound` returns at most one `(player, tier)`), and a
credit is granted only when the winner side's first-recorded
last-survivor candidate is that player, still alive at round end on the
winning side, at the tier matching the recorded opponent count
(necessarily in 2..5, recorded at the first processed death event after
which that side had exactly one alive member and the opposing side had
2..5). -/
theorem clutch_exclusive (tm : List (String × ℤ)) (victims : List String)
    (w : Option ℤ) (psid : String) (x : ℕ)
    (h : clutchRound tm victims w = some (psid, x)) :
    2 ≤ x ∧ x ≤ 5 ∧
    ((w = some T_TEAM ∧
      (clutchFold tm victims).candT = some (psid, x) ∧
      psid ∈ (clutchFold tm victims).aliveT ∧
      ∃ k, k < victims.length ∧
        (clutchFold tm (victims.take k)).candT = none ∧
        (clutchFold tm (victims.take (k+1))).candT = some (psid, x) ∧
        (clutchFold tm (victims.take (k+1))).aliveT = [psid] ∧
        (clutchFold tm (victims.take (k+1))).aliveCT.length = x) ∨
     (w = some CT_TEAM ∧
      (clutchFold tm victims).candCT = some (psid, x) ∧
      psid ∈ (clutchFold tm victims).aliveCT ∧
      ∃ k, k < victims.length ∧
        (clutchFold tm (victims.take k)).candCT = none ∧
        (clutchFold tm (victims.take (k+1))).candCT = some (psid, x) ∧
        (clutchFold tm (victims.take (k+1))).aliveCT = [psid] ∧
        (clutchFold tm (victims.take (k+1))).aliveT.length = x)) := by
  unfold clutchRound at h
  cases w with
  | none => exact absurd h (by simp)
  | some wv =>
    dsimp only at h
    split_ifs at h with hw
    rcases hw with hw | hw
    · subst hw
      rw [candOf, if_pos rfl] at h
      rcases hcand : (clutchFold tm victims).candT with _ | sx
      · rw [hcand] at h
        exact absurd h (by simp)
      · rw [hcand] at h
        rcases sx with ⟨sid, x0⟩
        rw [aliveOf, if_pos rfl] at h
        dsimp only at h
        split_ifs at h with hmem htier
        · injection h with h
          rcases Prod.mk.injEq .. |>.mp h with ⟨hsid, hx0⟩
          subst hsid
          subst hx0
          have hfirst := foldl_candT_first tm victims (clutchInit tm)
            (sid, x0) rfl hcand
          refine ⟨?_, ?_, Or.inl ⟨rfl, rfl, hmem, ?_⟩⟩
          · rcases htier with h' | h' | h' | h' <;> omega
          · rcases htier with h' | h' | h' | h' <;> omega
          · obtain ⟨k, hk, ha, hb, hc, hd, _, _⟩ := hfirst
            exact ⟨k, hk, ha, hb, hc, hd⟩
    · subst hw
      have hTne : (CT_TEAM = T_TEAM) = False := by
        simp [T_TEAM, CT_TEAM]
      rw [candOf, if_neg (by simp [T_TEAM, CT_TEAM])] at h
      rcases hcand : (clutchFold tm victims).candCT with _ | sx
      · rw [hcand] at h
        exact absurd h (by simp)
      · rw [hcand] at h
        rcases sx with ⟨sid, x0⟩
        rw [aliveOf, if_neg (by simp [T_TEAM, CT_TEAM])] at h
        dsimp only at h
        split_ifs at h with hmem htier
        · injection h with h
          rcases Prod.mk.injEq .. |>.mp h with ⟨hsid, hx0⟩
          subst hsid
          subst hx0
          have hfirst := foldl_candCT_first tm victims (clutchInit tm)
            (sid, x0) rfl hcand
          refine ⟨?_, ?_, Or.inr ⟨rfl, rfl, hmem, ?_⟩⟩
          · rcases htier with h' | h' | h' | h' <;> omega
          · rcases htier with h' | h' | h' | h' <;> omega
          · obtain ⟨k, hk, ha, hb, hc, hd, _, _⟩ := hfirst
            exact ⟨k, hk, ha, hb, hc, hd⟩

theorem clutch_exclusive_witness :
    clutchRound [("A", 2), ("B", 2), ("C", 3), ("D", 3), ("E", 3)] ["B"]
      (some 2) = some ("A", 3) ∧
    (2 ≤ 3 ∧ (3 : ℕ) ≤ 5 ∧
     ((some (2 : ℤ) = some T_TEAM ∧
       (clutchFold [("A", 2), ("B", 2), ("C", 3), ("D", 3), ("E", 3)]
         ["B"]).candT = some ("A", 3) ∧
       "A" ∈ (clutchFold [("A", 2), ("B", 2), ("C", 3), ("D", 3), ("E", 3)]
         ["B"]).aliveT ∧
       ∃ k, k < (["B"] : List String).length ∧
         (clutchFold [("A", 2), ("B", 2), ("C", 3), ("D", 3), ("E", 3)]
           ((["B"] : List String).take k)).candT = none ∧
         (clutchFold [("A", 2), ("B", 2), ("C", 3), ("D", 3), ("E", 3)]
           ((["B"] : List String).take (k+1))).candT = some ("A", 3) ∧
         (clutchFold [("A", 2), ("B", 2), ("C", 3), ("D", 3), ("E", 3)]
           ((["B"] : List String).take (k+1))).aliveT = ["A"] ∧
         (clutchFold [("A", 2), ("B", 2), ("C", 3), ("D", 3), ("E", 3)]
           ((["B"] : List String).take (k+1))).aliveCT.length = 3) ∨
      (some (2 : ℤ) = some CT_TEAM ∧
       (clutchFold [("A", 2), ("B", 2), ("C", 3), ("D", 3), ("E", 3)]
         ["B"]).candCT = some ("A", 3) ∧
       "A" ∈ (clutchFold [("A", 2), ("B", 2), ("C", 3), ("D", 3), ("E", 3)]
         ["B"]).aliveCT ∧
       ∃ k, k < (["B"] : List String).length ∧
         (clutchFold [("A", 2), ("B", 2), ("C", 3), ("D", 3), ("E", 3)]
           ((["B"] : List String).take k)).candCT = none ∧
         (clutchFold [("A", 2), ("B", 2), ("C", 3), ("D", 3), ("E", 3)]
           ((["B"] : List String).take (k+1))).candCT = some ("A", 3) ∧
         (clutchFold [("A", 2), ("B", 2), ("C", 3), ("D", 3), ("E", 3)]
           ((["B"] : List String).take (k+1))).aliveCT = ["A"] ∧
         (clutchFold [("A", 2), ("B", 2), ("C", 3), ("D", 3), ("E", 3)]
           ((["B"] : List String).take (k+1))).aliveT.length = 3))) :=
  ⟨rfl, clutch_exclusive [("A", 2), ("B", 2), ("C", 3), ("D", 3), ("E", 3)]
    ["B"] (some 2) "A" 3 rfl⟩

end FantasyLeague
